import Mathlib

/-!
# Verification of the PROMETHEUS infrastructure brain core

Shallow embedding of `src/infrastructure_brain.py`: the multi-cloud
orchestrator (placement, routing, autoscaling) and the self-healing engine
(monitor cycle, overload migration, datacenter and service recovery).

Modelling conventions:
* Python `dict`s keyed by id are modelled as lists in insertion order; dict
  lookup/assignment/deletion act on the first (unique) entry with a
  matching key.
* Python `int` is `Int`.  Python `float` fields that the program only
  compares and assigns decimal constants to (latency, uptime, health, cpu,
  memory usage) are modelled in integer *tenths*: `0.5 ↦ 5`, `99.9 ↦ 999`,
  `1.0 ↦ 10`, `50.0 ↦ 500`, `60.0 ↦ 600`.  This grid is order-isomorphic
  to the float values the source manipulates, so every comparison the code
  performs is preserved.
* Load-ratio comparisons `a.current_load / a.capacity ≤ b.current_load /
  b.capacity` (float division) are modelled exactly by integer
  cross-multiplication; for positive capacities this coincides with the
  rational (hence, at these magnitudes, the float) comparison — see
  `ratioLE_iff_div`.  Python would raise `ZeroDivisionError` on a
  zero-capacity pool, so theorems assume positive capacities.
* `int(dc.current_load * 0.2)` is modelled by truncating division
  `Int.tdiv` by 5, exact for the magnitudes the program produces.
* Python `sorted` is a stable sort; `stableSortByRatio` below is a
  structurally recursive stable insertion sort on the same key, and a
  stable sort on a given key is a unique function, so it computes exactly
  what `sorted(..., key=ratio)` computes.
* A Python statement that raises an uncaught exception is modelled with
  `Except`: `min()` over an empty sequence in `_heal_overload` raises
  `ValueError`, modelled as `HealErr.noMigrationTarget`.
-/

namespace PrometheusBrain

/-- `CloudProvider` enum of the source. -/
inductive CloudProvider where
  | aws | azure | gcp | oracle | alibaba
deriving DecidableEq, Repr

/-- `RegionStatus` enum of the source. -/
inductive RegionStatus where
  | healthy | degraded | critical | offline
deriving DecidableEq, Repr

/-- `DataCenter` dataclass of the source (a resource pool).
`latencyTenths` and `uptimeTenths` carry the float fields in tenths. -/
structure DataCenter where
  id : String
  provider : CloudProvider
  region : String
  country : String
  capacity : Int
  currentLoad : Int
  status : RegionStatus
  latencyTenths : Int
  uptimeTenths : Int
deriving DecidableEq, Repr

/-- `ServiceInstance` dataclass of the source; the float metrics are in
tenths (`health = 1.0 ↦ 10`). -/
structure ServiceInstance where
  id : String
  serviceName : String
  datacenterId : String
  cpuTenths : Int
  memoryTenths : Int
  requestsPerSec : Int
  healthTenths : Int
deriving DecidableEq, Repr

/-- `MultiCloudOrchestrator` state: the two registries (dicts in insertion
order) plus the two counters. -/
structure Orchestrator where
  datacenters : List DataCenter
  services : List ServiceInstance
  totalUsers : Int
  globalTraffic : Int
deriving DecidableEq, Repr

/-- Orchestrator plus the `SelfHealingEngine.healing_actions` counter. -/
structure System where
  orch : Orchestrator
  healingActions : Nat
deriving DecidableEq, Repr

/-- The exact value of `dc.current_load / dc.capacity` as a rational, used
only in specification statements (ℚ division totalizes the zero-capacity
case that Python turns into `ZeroDivisionError`). -/
def loadRatio (dc : DataCenter) : ℚ := (dc.currentLoad : ℚ) / (dc.capacity : ℚ)

/-- `loadRatio a ≤ loadRatio b`, rendered by integer cross-multiplication
(exact for positive capacities, see `ratioLE_iff_div`). -/
def RatioLE (a b : DataCenter) : Prop :=
  a.currentLoad * b.capacity ≤ b.currentLoad * a.capacity

/-- `loadRatio a < loadRatio b` by cross-multiplication. -/
def RatioLT (a b : DataCenter) : Prop :=
  a.currentLoad * b.capacity < b.currentLoad * a.capacity

instance (a b : DataCenter) : Decidable (RatioLE a b) := by
  unfold RatioLE; infer_instance

instance (a b : DataCenter) : Decidable (RatioLT a b) := by
  unfold RatioLT; infer_instance

/-- For positive capacities the cross-multiplied comparison is the ratio
comparison of the source. -/
theorem ratioLE_iff_div (a b : DataCenter) (ha : 0 < a.capacity) (hb : 0 < b.capacity) :
    RatioLE a b ↔ loadRatio a ≤ loadRatio b := by
  unfold RatioLE loadRatio
  rw [div_le_div_iff₀ (by exact_mod_cast ha) (by exact_mod_cast hb)]
  constructor
  · intro h; exact_mod_cast h
  · intro h; exact_mod_cast h

/-- Insert a pool into a (sorted) list, skipping the pools of strictly
smaller ratio: the insertion step of a stable sort on the ratio key. -/
def insertByRatio (x : DataCenter) : List DataCenter → List DataCenter
  | [] => [x]
  | y :: ys => if RatioLT y x then y :: insertByRatio x ys else x :: y :: ys

/-- `sorted(self.datacenters.values(), key=lambda dc: dc.current_load / dc.capacity)`:
Python `sorted` is stable, and a stable sort by a fixed key is a unique
function of the input list, so this stable insertion sort computes it. -/
def stableSortByRatio (l : List DataCenter) : List DataCenter :=
  l.foldr insertByRatio []

/-- Update the first datacenter with the given id (Python dict field
mutation through the object stored at that key). -/
def setFirstDC (dcs : List DataCenter) (i : String) (f : DataCenter → DataCenter) :
    List DataCenter :=
  match dcs with
  | [] => []
  | d :: ds => if d.id = i then f d :: ds else d :: setFirstDC ds i f

/-- `dc.current_load += m` (and `-= m` via a negative `m`) on the pool with
the given id. -/
def bumpLoad (dcs : List DataCenter) (i : String) (m : Int) : List DataCenter :=
  setFirstDC dcs i (fun d => { d with currentLoad := d.currentLoad + m })

/-- Dict lookup `self.datacenters[i]` (first entry with the key). -/
def findDC (o : Orchestrator) (i : String) : Option DataCenter :=
  o.datacenters.find? (fun d => d.id = i)

/-- Dict lookup in the instance table. -/
def findSvc (o : Orchestrator) (i : String) : Option ServiceInstance :=
  o.services.find? (fun s => s.id = i)

/-- The current load of the pool with the given id, if present. -/
def loadOf (o : Orchestrator) (i : String) : Option Int :=
  (findDC o i).map (fun d => d.currentLoad)

/-- Dict assignment `self.services[inst.id] = inst`: replace the entry with
the same key in place, else append. -/
def upsertService (svcs : List ServiceInstance) (inst : ServiceInstance) :
    List ServiceInstance :=
  match svcs with
  | [] => [inst]
  | x :: xs => if x.id = inst.id then inst :: xs else x :: upsertService xs inst

/-- `f"{service_name}-{dc.id}-{int(time.time())}"`; the wall clock is an
explicit parameter `now`. -/
def mkInstanceId (name dcId : String) (now : Nat) : String :=
  name ++ "-" ++ dcId ++ "-" ++ toString now

/-- The pool selection of `deploy_service`:
`sorted(self.datacenters.values(), key=lambda dc: dc.current_load / dc.capacity)[:replicas]`. -/
def deploySelect (o : Orchestrator) (replicas : Nat) : List DataCenter :=
  (stableSortByRatio o.datacenters).take replicas

/-- The loop body of `deploy_service`: create the instance record, store
it in the instance table, add 1000 to the pool's load, append the id. -/
def deployStep (name : String) (now : Nat) (acc : List String × Orchestrator)
    (dc : DataCenter) : List String × Orchestrator :=
  let iid := mkInstanceId name dc.id now
  let inst : ServiceInstance :=
    { id := iid, serviceName := name, datacenterId := dc.id,
      cpuTenths := 0, memoryTenths := 0, requestsPerSec := 0, healthTenths := 10 }
  (acc.1 ++ [iid],
   { acc.2 with
     services := upsertService acc.2.services inst,
     datacenters := bumpLoad acc.2.datacenters dc.id 1000 })

/-- `deploy_service(service_name, replicas)`: place one instance on each
selected pool, add 1000 load per instance, return the created ids. -/
def deployService (o : Orchestrator) (name : String) (replicas : Nat) (now : Nat) :
    List String × Orchestrator :=
  (deploySelect o replicas).foldl (deployStep name now) ([], o)

/-- First-minimum fold: Python `min(x :: xs, key=f)` keeps the current best
and replaces it only on a strictly smaller key, so it returns the first
element attaining the minimal key. -/
def pythonMinBy (lt : DataCenter → DataCenter → Bool) (x : DataCenter)
    (xs : List DataCenter) : DataCenter :=
  xs.foldl (fun best d => if lt d best then d else best) x

/-- Routing eligibility: status Healthy and `current_load < capacity * 0.9`
(exactly: `10*load < 9*capacity`). -/
def Eligible (dc : DataCenter) : Prop :=
  dc.status = RegionStatus.healthy ∧ 10 * dc.currentLoad < 9 * dc.capacity

instance (dc : DataCenter) : Decidable (Eligible dc) := by
  unfold Eligible; infer_instance

/-- The eligible pools of the router, in registry order. -/
def eligibleDCs (o : Orchestrator) : List DataCenter :=
  o.datacenters.filter (fun dc => Eligible dc)

/-- `route_traffic(user_location)`: filter to the eligible pools, then take
the first pool of minimal latency; `None` when no pool is eligible.  The
location argument is accepted and ignored, as in the source. -/
def routeTraffic (o : Orchestrator) (_userLocation : String) : Option String :=
  match eligibleDCs o with
  | [] => none
  | x :: xs =>
    some (pythonMinBy (fun a b => decide (a.latencyTenths < b.latencyTenths)) x xs).id

/-- Dict deletion `del self.services[i]` (the key is unique in a dict;
on the list model, erase the first entry with the key). -/
def eraseSvc (svcs : List ServiceInstance) (i : String) : List ServiceInstance :=
  svcs.eraseP (fun s => s.id = i)

/-- Delete each instance of the given list from the table, in order. -/
def eraseList (svcs : List ServiceInstance) (R : List ServiceInstance) :
    List ServiceInstance :=
  R.foldl (fun acc i => eraseSvc acc i.id) svcs

/-- The instances of a service, in registry (dict insertion) order:
`[s for s in self.services.values() if s.service_name == service_name]`. -/
def serviceInstancesOf (o : Orchestrator) (name : String) : List ServiceInstance :=
  o.services.filter (fun s => s.serviceName = name)

/-- Instances of a service in a raw table. -/
def countSvcList (svcs : List ServiceInstance) (name : String) : Nat :=
  (svcs.filter (fun s => s.serviceName = name)).length

/-- Number of instances of a service. -/
def countService (o : Orchestrator) (name : String) : Nat :=
  countSvcList o.services name

/-- `scale_service(service_name, target_instances)`.  Scale-up calls
`deploy_service` with the missing count.  Scale-down pops the instance list
from the end `current - target` times and deletes each popped instance from
the registry, i.e. it erases exactly the entries of
`(serviceInstancesOf o name).drop target`, most recent first. -/
def scaleService (o : Orchestrator) (name : String) (target : Nat) (now : Nat) :
    Orchestrator :=
  let cur := serviceInstancesOf o name
  if target > cur.length then
    (deployService o name (target - cur.length) now).2
  else if target < cur.length then
    { o with services := eraseList o.services ((cur.drop target).reverse) }
  else
    o

/-- The instance ids a `deploy_service(name, k)` call would generate. -/
def genIds (o : Orchestrator) (name : String) (k : Nat) (now : Nat) : List String :=
  (deploySelect o k).map (fun dc => mkInstanceId name dc.id now)

/-- The generated instance ids of a deployment are pairwise distinct and
absent from the instance table (true in Python whenever the call does not
collide with an earlier deployment of the same service to the same pool
within the same wall-clock second). -/
def FreshIds (o : Orchestrator) (name : String) (k : Nat) (now : Nat) : Prop :=
  (genIds o name k now).Nodup ∧
  ∀ iid ∈ genIds o name k now, iid ∉ o.services.map ServiceInstance.id

instance (o : Orchestrator) (name : String) (k : Nat) (now : Nat) :
    Decidable (FreshIds o name k now) := by
  unfold FreshIds; infer_instance

/-- The one uncaught exception of the healing engine: `_heal_overload`
calls `min()` over the empty sequence of other pools. -/
inductive HealErr where
  | noMigrationTarget
deriving DecidableEq, Repr

deriving instance DecidableEq for Except

/-- `int(dc.current_load * 0.2)`: truncating division by 5 (`Int.tdiv`
truncates toward zero exactly as Python `int()` does on the
sign-preserving float product; exact at the program's magnitudes). -/
def migrationAmount (dc : DataCenter) : Int := dc.currentLoad.tdiv 5

/-- `_heal_overload(dc)`: pick the other pool of minimal load ratio (first
minimum, as Python `min`), move `int(current_load * 0.2)` units of load
from `dc` to it, bump the healing counter.  With no other pool, Python's
`min()` raises `ValueError` before any mutation. -/
def healOverload (s : System) (dcId : String) : Except HealErr System :=
  match findDC s.orch dcId with
  | none => .ok s
  | some dc =>
    match s.orch.datacenters.filter (fun d => ¬ d.id = dcId) with
    | [] => .error .noMigrationTarget
    | t :: ts =>
      let target := pythonMinBy (fun a b => decide (RatioLT a b)) t ts
      let m := migrationAmount dc
      .ok { orch := { s.orch with
              datacenters :=
                bumpLoad (bumpLoad s.orch.datacenters dcId (-m)) target.id m },
            healingActions := s.healingActions + 1 }

/-- The fixed recovery uptime `99.9`, in tenths. -/
def recoveryUptimeTenths : Int := 999

/-- `_heal_datacenter(dc)`: reset status to Healthy, uptime to 99.9. -/
def healDatacenter (s : System) (dcId : String) : System :=
  { orch := { s.orch with
      datacenters := setFirstDC s.orch.datacenters dcId
        (fun d => { d with status := RegionStatus.healthy,
                           uptimeTenths := recoveryUptimeTenths }) },
    healingActions := s.healingActions + 1 }

/-- Update the first service instance with the given id. -/
def setFirstSvc (svcs : List ServiceInstance) (i : String)
    (f : ServiceInstance → ServiceInstance) : List ServiceInstance :=
  match svcs with
  | [] => []
  | x :: xs => if x.id = i then f x :: xs else x :: setFirstSvc xs i f

/-- `_heal_service(service)`: health 1.0, cpu 50.0, memory 60.0. -/
def healService (s : System) (svcId : String) : System :=
  { orch := { s.orch with
      services := setFirstSvc s.orch.services svcId
        (fun i => { i with healthTenths := 10, cpuTenths := 500, memoryTenths := 600 }) },
    healingActions := s.healingActions + 1 }

/-- Overload test of the monitor: `dc.current_load > dc.capacity * 0.95`
(exactly: `20*load > 19*capacity`). -/
def Overloaded (dc : DataCenter) : Prop := 20 * dc.currentLoad > 19 * dc.capacity

instance (dc : DataCenter) : Decidable (Overloaded dc) := by
  unfold Overloaded; infer_instance

/-- The `if dc.status != RegionStatus.HEALTHY` arm of the datacenter loop,
reading the pool's status from the current state. -/
def statusStep (s : System) (dcId : String) : System :=
  match findDC s.orch dcId with
  | none => s
  | some dc2 =>
    if ¬ dc2.status = RegionStatus.healthy then healDatacenter s dcId else s

/-- One iteration of the datacenter loop of `monitor_and_heal` for the pool
with the given id, reading the pool's current state at each check:
the overload arm (may raise), then the status arm. -/
def monitorStepDC (s : System) (dcId : String) : Except HealErr System :=
  match findDC s.orch dcId with
  | none => .ok s
  | some dc =>
    (if Overloaded dc then healOverload s dcId else .ok s).map
      (fun s1 => statusStep s1 dcId)

/-- Unhealthy-instance test of the monitor: `service.health < 0.5`
(in tenths: `health < 5`). -/
def UnhealthySvc (inst : ServiceInstance) : Prop := inst.healthTenths < 5

instance (inst : ServiceInstance) : Decidable (UnhealthySvc inst) := by
  unfold UnhealthySvc; infer_instance

/-- One iteration of the service loop of `monitor_and_heal`. -/
def monitorStepSvc (s : System) (svcId : String) : System :=
  match findSvc s.orch svcId with
  | none => s
  | some inst => if UnhealthySvc inst then healService s svcId else s

/-- The datacenter loop of `monitor_and_heal`, over a list of pool ids. -/
def dcPhase (s : System) (ids : List String) : Except HealErr System :=
  ids.foldlM monitorStepDC s

/-- The service loop of `monitor_and_heal`, over a list of instance ids. -/
def svcPhase (s : System) (ids : List String) : System :=
  ids.foldl monitorStepSvc s

/-- `monitor_and_heal()`: sweep the datacenters (overload migration, status
recovery), then the service instances (health recovery).  Both loops run
over the registry's iteration order; an uncaught exception aborts the
cycle. -/
def monitorAndHeal (s : System) : Except HealErr System := do
  let s1 ← dcPhase s (s.orch.datacenters.map (fun d => d.id))
  .ok (svcPhase s1 (s1.orch.services.map (fun i => i.id)))

/-- Sum of the pools' loads. -/
def sumLoads (o : Orchestrator) : Int :=
  (o.datacenters.map (fun d => d.currentLoad)).sum

/-- All pool loads are nonnegative. -/
def LoadsNonneg (o : Orchestrator) : Prop :=
  ∀ dc ∈ o.datacenters, 0 ≤ dc.currentLoad

instance (o : Orchestrator) : Decidable (LoadsNonneg o) := by
  unfold LoadsNonneg; infer_instance

/-- All pool capacities are positive (Python divides by them). -/
def CapsPos (o : Orchestrator) : Prop :=
  ∀ dc ∈ o.datacenters, 0 < dc.capacity

instance (o : Orchestrator) : Decidable (CapsPos o) := by
  unfold CapsPos; infer_instance

/-- The two operations of the source that mutate pool load: the
per-instance increments of `deploy_service` and the 20% migration
subtraction of `_heal_overload`. -/
inductive LoadOp where
  | deploy (name : String) (replicas : Nat) (now : Nat)
  | overloadHeal (dcId : String)
deriving DecidableEq, Repr

/-- Apply one load-mutating operation.  `_heal_overload`'s only error
(`min()` of an empty sequence) is raised before any mutation, so the
failing case leaves the state unchanged. -/
def applyOp (s : System) (op : LoadOp) : System :=
  match op with
  | .deploy name replicas now =>
    { s with orch := (deployService s.orch name replicas now).2 }
  | .overloadHeal dcId =>
    match healOverload s dcId with
    | .ok s2 => s2
    | .error _ => s

/-- Apply a sequence of load-mutating operations. -/
def applyOps (s : System) (ops : List LoadOp) : System :=
  ops.foldl applyOp s

/-- A state on which the monitor finds nothing to do: no pool overloaded
or unhealthy, no instance with health below 0.5. -/
def AlreadyHealthy (s : System) : Prop :=
  (∀ dc ∈ s.orch.datacenters, ¬ Overloaded dc ∧ dc.status = RegionStatus.healthy) ∧
  ∀ i ∈ s.orch.services, ¬ UnhealthySvc i

instance (s : System) : Decidable (AlreadyHealthy s) := by
  unfold AlreadyHealthy; infer_instance

/-- Well-formedness of a registry, automatic for any state that mirrors a
Python state: dict keys are unique and every pool has positive capacity
(the source divides by it). -/
def WF (o : Orchestrator) : Prop :=
  (o.datacenters.map DataCenter.id).Nodup ∧
  (o.services.map ServiceInstance.id).Nodup ∧
  ∀ dc ∈ o.datacenters, 0 < dc.capacity

instance (o : Orchestrator) : Decidable (WF o) := by
  unfold WF; infer_instance

/-- For positive capacities the cross-multiplied strict comparison is the
strict ratio comparison of the source. -/
theorem ratioLT_iff_div (a b : DataCenter) (ha : 0 < a.capacity) (hb : 0 < b.capacity) :
    RatioLT a b ↔ loadRatio a < loadRatio b := by
  unfold RatioLT loadRatio
  rw [div_lt_div_iff₀ (by exact_mod_cast ha) (by exact_mod_cast hb)]
  constructor
  · intro h; exact_mod_cast h
  · intro h; exact_mod_cast h

/-! ## Concrete registries used as inputs of witnesses and counterexamples -/

/-- A pool with the given id, capacity, load, status and latency. -/
def mkDC (i : String) (cap load : Int) (st : RegionStatus) (lat : Int) : DataCenter :=
  { id := i, provider := .aws, region := "r", country := "c", capacity := cap,
    currentLoad := load, status := st, latencyTenths := lat, uptimeTenths := 1000 }

/-- An orchestrator holding the given registries and zeroed counters. -/
def mkOrch (dcs : List DataCenter) (svcs : List ServiceInstance) : Orchestrator :=
  { datacenters := dcs, services := svcs, totalUsers := 0, globalTraffic := 0 }

/-- Registry with a single pool at 96% load (96000 of 100000), Healthy:
the overload check fires, and `_heal_overload` has no other pool. -/
def singleOverloadedReg : Orchestrator :=
  mkOrch [mkDC "aws-us-east-1" 100000 96000 .healthy 100] []

/-- The scenario registry of the spec: pool A at load 96 of capacity 100
(Healthy), next to an idle pool B. -/
def scenarioAB : Orchestrator :=
  mkOrch [mkDC "A" 100 96 .healthy 10, mkDC "B" 100 0 .healthy 20] []

/-- Two pools both overloaded at cycle start: A at 100 of 100, B at 98 of
100.  A's migration (20 units) lands on B before B is processed, so B is
healed from load 118, not from its cycle-start load 98. -/
def c6cxReg : Orchestrator :=
  mkOrch [mkDC "A" 100 100 .healthy 10, mkDC "B" 100 98 .healthy 20] []

/-- The state the `c6cxReg` cycle has reached when the sweep arrives at
pool B: A healed down to load 80, B raised to 118 by A's migration, one
healing action recorded. -/
def c6cxMid : Orchestrator :=
  mkOrch [mkDC "A" 100 80 .healthy 10, mkDC "B" 100 118 .healthy 20] []

/-- Two idle pools with equal load ratios, inserted in the order
`b-pool`, `a-pool` (descending ids): separates id-ascending tie-breaking
from insertion-order tie-breaking in placement. -/
def tieRatioReg : Orchestrator :=
  mkOrch [mkDC "b-pool" 100 0 .healthy 10, mkDC "a-pool" 100 0 .healthy 20] []

/-- Two eligible pools with equal latencies, inserted in the order
`b-pool`, `a-pool`: separates id-ascending tie-breaking from
insertion-order tie-breaking in routing. -/
def tieLatencyReg : Orchestrator :=
  mkOrch [mkDC "b-pool" 100 0 .healthy 50, mkDC "a-pool" 100 0 .healthy 50] []

/-- One pool holding the 1000 load units of one deployed instance of
`svc`: the input for the scale-down load-release question. -/
def oneInstanceReg : Orchestrator :=
  mkOrch [mkDC "p" 100000 1000 .healthy 10]
    [{ id := "svc-p-0", serviceName := "svc", datacenterId := "p",
       cpuTenths := 0, memoryTenths := 0, requestsPerSec := 0, healthTenths := 10 }]

/-- A degraded pool and a healthy one, plus one unhealthy instance:
input for the healing-convergence witness. -/
def c4Reg : Orchestrator :=
  mkOrch [mkDC "P" 100 0 .degraded 10, mkDC "Q" 100 50 .healthy 20]
    [{ id := "i1", serviceName := "svc", datacenterId := "P",
       cpuTenths := 0, memoryTenths := 0, requestsPerSec := 0, healthTenths := 2 }]

/-- The state one monitor cycle leaves `c4Reg` in: the degraded pool reset
to Healthy with uptime 99.9, the unhealthy instance reset to health 1.0
with the fixed usage baselines. -/
def c4Healed : Orchestrator :=
  mkOrch
    [{ id := "P", provider := .aws, region := "r", country := "c", capacity := 100,
       currentLoad := 0, status := .healthy, latencyTenths := 10, uptimeTenths := 999 },
     mkDC "Q" 100 50 .healthy 20]
    [{ id := "i1", serviceName := "svc", datacenterId := "P",
       cpuTenths := 500, memoryTenths := 600, requestsPerSec := 0, healthTenths := 10 }]

/-- A pool 20% above capacity next to an idle pool: input for the
single-step recovery bound. -/
def c7StepReg : Orchestrator :=
  mkOrch [mkDC "X" 100 120 .healthy 10, mkDC "Y" 100 0 .healthy 20] []

/-- The fleet built by `initialize_global_infrastructure`: 12 pools of
capacity 100000, in the source's insertion order.  The source draws each
latency from `random.uniform(10, 100)`; no load/heal/scale behaviour reads
latencies, so they are fixed at 50.0 ms (500 tenths) here. -/
def initialRegistry : Orchestrator :=
  mkOrch
    [ mkDC "aws-us-east-1" 100000 0 .healthy 500,
      mkDC "gcp-us-west-1" 100000 0 .healthy 500,
      mkDC "azure-eu-west-1" 100000 0 .healthy 500,
      mkDC "aws-eu-central-1" 100000 0 .healthy 500,
      mkDC "aws-ap-southeast-1" 100000 0 .healthy 500,
      mkDC "gcp-ap-northeast-1" 100000 0 .healthy 500,
      mkDC "azure-ap-south-1" 100000 0 .healthy 500,
      mkDC "aws-sa-east-1" 100000 0 .healthy 500,
      mkDC "oracle-me-south-1" 100000 0 .healthy 500,
      mkDC "alibaba-cn-north-1" 100000 0 .healthy 500,
      mkDC "azure-af-south-1" 100000 0 .healthy 500,
      mkDC "aws-ca-central-1" 100000 0 .healthy 500 ] []

/-- `n` successive `deploy_service("svc", replicas=12)` calls (all within
the same wall-clock second, as the source's tight loops do). -/
def deployN : Nat → Orchestrator → Orchestrator
  | 0, o => o
  | n+1, o => deployN n (deployService o "svc" 12 0).2

/-- The instance the repeated deployments leave in the registry for a
pool (ids collide across calls, so the dict keeps one entry per pool). -/
def deployedInst (dcid : String) : ServiceInstance :=
  { id := "svc-" ++ dcid ++ "-0", serviceName := "svc", datacenterId := dcid,
    cpuTenths := 0, memoryTenths := 0, requestsPerSec := 0, healthTenths := 10 }

/-- The fleet of `initialRegistry` with every pool at the given load and
one deployed `svc` instance per pool: the states reached by `deployN`. -/
def uniformFleet (load : Int) : Orchestrator :=
  mkOrch
    [ mkDC "aws-us-east-1" 100000 load .healthy 500,
      mkDC "gcp-us-west-1" 100000 load .healthy 500,
      mkDC "azure-eu-west-1" 100000 load .healthy 500,
      mkDC "aws-eu-central-1" 100000 load .healthy 500,
      mkDC "aws-ap-southeast-1" 100000 load .healthy 500,
      mkDC "gcp-ap-northeast-1" 100000 load .healthy 500,
      mkDC "azure-ap-south-1" 100000 load .healthy 500,
      mkDC "aws-sa-east-1" 100000 load .healthy 500,
      mkDC "oracle-me-south-1" 100000 load .healthy 500,
      mkDC "alibaba-cn-north-1" 100000 load .healthy 500,
      mkDC "azure-af-south-1" 100000 load .healthy 500,
      mkDC "aws-ca-central-1" 100000 load .healthy 500 ]
    [ deployedInst "aws-us-east-1", deployedInst "gcp-us-west-1",
      deployedInst "azure-eu-west-1", deployedInst "aws-eu-central-1",
      deployedInst "aws-ap-southeast-1", deployedInst "gcp-ap-northeast-1",
      deployedInst "azure-ap-south-1", deployedInst "aws-sa-east-1",
      deployedInst "oracle-me-south-1", deployedInst "alibaba-cn-north-1",
      deployedInst "azure-af-south-1", deployedInst "aws-ca-central-1" ]

/-- The state the program reaches from its own initializer after 200
`deploy_service("svc", 12)` calls: every pool at load 200000, twice its
capacity. -/
def c7Reach : Orchestrator := deployN 200 initialRegistry

/-! ## Definitions taken from the spec's words, for refinement comparisons

The spec claims id-ascending tie-breaking for placement and routing.  The
following two definitions follow those words (sort/minimize by the pair
`(key, id)`); they are compared against the functions embedded from the
source. -/

/-- Code-point lexicographic comparison of character lists (how Python
compares the id strings). -/
def charListLt (a b : List Char) : Bool :=
  match a, b with
  | [], [] => false
  | [], _ :: _ => true
  | _ :: _, [] => false
  | c :: cs, d :: ds =>
    if c.toNat < d.toNat then true
    else if d.toNat < c.toNat then false
    else charListLt cs ds

/-- `a < b` on strings, by code points. -/
def strLtB (a b : String) : Bool := charListLt a.data b.data

/-- Ratio comparison with id tie-break, as the spec words it:
`a` strictly precedes `b` when its ratio is smaller, or the ratios are
tied and its id is smaller. -/
def SpecPlaceLT (a b : DataCenter) : Prop :=
  RatioLT a b ∨ (a.currentLoad * b.capacity = b.currentLoad * a.capacity ∧
    strLtB a.id b.id = true)

instance (a b : DataCenter) : Decidable (SpecPlaceLT a b) := by
  unfold SpecPlaceLT; infer_instance

/-- Insertion step of the `(ratio, id)` sort. -/
def insertBySpecPlace (x : DataCenter) : List DataCenter → List DataCenter
  | [] => [x]
  | y :: ys => if SpecPlaceLT y x then y :: insertBySpecPlace x ys else x :: y :: ys

/-- Modelled from the spec: `place` "selects the `replica_count` pools with
lowest `current_load/capacity` ratio (ties broken by pool id, ascending)".
Returns the ids of the selected pools, in selection order. -/
def placeSpecIdTieBreak (o : Orchestrator) (replicas : Nat) : List String :=
  ((o.datacenters.foldr insertBySpecPlace []).take replicas).map (fun d => d.id)

/-- Modelled from the spec: `route` picks, among eligible pools, "the one
with minimum latency estimate; ties broken by pool id". -/
def routeSpecIdTieBreak (o : Orchestrator) : Option String :=
  match eligibleDCs o with
  | [] => none
  | x :: xs =>
    some (pythonMinBy
      (fun a b => decide (a.latencyTenths < b.latencyTenths ∨
        (a.latencyTenths = b.latencyTenths ∧ strLtB a.id b.id = true))) x xs).id

/-! ## Theorems -/

/-! ### Registry update lemmas -/

theorem map_id_setFirstDC (ds : List DataCenter) (i : String) (f : DataCenter → DataCenter)
    (hf : ∀ d, (f d).id = d.id) :
    (setFirstDC ds i f).map DataCenter.id = ds.map DataCenter.id := by
  induction ds with
  | nil => rfl
  | cons d ds ih =>
    by_cases h : d.id = i <;> simp [setFirstDC, h, hf, ih]

theorem length_setFirstDC (ds : List DataCenter) (i : String) (f : DataCenter → DataCenter) :
    (setFirstDC ds i f).length = ds.length := by
  induction ds with
  | nil => rfl
  | cons d ds ih =>
    by_cases h : d.id = i <;> simp [setFirstDC, h, ih]

theorem find?_setFirstDC_ne (ds : List DataCenter) (i k : String) (f : DataCenter → DataCenter)
    (hf : ∀ d, (f d).id = d.id) (hk : k ≠ i) :
    (setFirstDC ds i f).find? (fun d => d.id = k) = ds.find? (fun d => d.id = k) := by
  induction ds with
  | nil => rfl
  | cons d ds ih =>
    show List.find? _ (if d.id = i then f d :: ds else d :: setFirstDC ds i f) = _
    by_cases h : d.id = i
    · have hdk : ¬ d.id = k := by rw [h]; exact fun hc => hk hc.symm
      have hfdk : ¬ (f d).id = k := by rw [hf]; exact hdk
      rw [if_pos h, List.find?_cons_of_neg _ (by simpa using hfdk),
          List.find?_cons_of_neg _ (by simpa using hdk)]
    · rw [if_neg h]
      by_cases hdk : d.id = k
      · rw [List.find?_cons_of_pos _ (by simpa using hdk),
            List.find?_cons_of_pos _ (by simpa using hdk)]
      · rw [List.find?_cons_of_neg _ (by simpa using hdk),
            List.find?_cons_of_neg _ (by simpa using hdk), ih]

theorem find?_setFirstDC_eq (ds : List DataCenter) (i : String) (f : DataCenter → DataCenter)
    (hf : ∀ d, (f d).id = d.id) :
    (setFirstDC ds i f).find? (fun d => d.id = i) = (ds.find? (fun d => d.id = i)).map f := by
  induction ds with
  | nil => rfl
  | cons d ds ih =>
    show List.find? _ (if d.id = i then f d :: ds else d :: setFirstDC ds i f) = _
    by_cases h : d.id = i
    · have hfd : (f d).id = i := by rw [hf]; exact h
      rw [if_pos h, List.find?_cons_of_pos _ (by simpa using hfd),
          List.find?_cons_of_pos _ (by simpa using h)]
      rfl
    · rw [if_neg h, List.find?_cons_of_neg _ (by simpa using h),
          List.find?_cons_of_neg _ (by simpa using h), ih]

theorem setFirstDC_of_not_found (ds : List DataCenter) (i : String) (f : DataCenter → DataCenter)
    (h : ds.find? (fun d => d.id = i) = none) :
    setFirstDC ds i f = ds := by
  induction ds with
  | nil => rfl
  | cons d ds ih =>
    have hd : ¬ d.id = i := by
      intro hc
      rw [List.find?_cons_of_pos _ (by simpa using hc)] at h
      exact Option.noConfusion h
    rw [List.find?_cons_of_neg _ (by simpa using hd)] at h
    show (if d.id = i then _ else d :: setFirstDC ds i f) = d :: ds
    rw [if_neg hd, ih h]

theorem mem_setFirstDC (ds : List DataCenter) (i : String) (f : DataCenter → DataCenter)
    (d' : DataCenter) (h : d' ∈ setFirstDC ds i f) :
    d' ∈ ds ∨ ∃ d ∈ ds, d' = f d ∧ d.id = i := by
  induction ds with
  | nil => simp [setFirstDC] at h
  | cons d ds ih =>
    by_cases hd : d.id = i
    · simp only [setFirstDC, if_pos hd] at h
      rcases List.mem_cons.mp h with h | h
      · exact Or.inr ⟨d, List.mem_cons_self _ _, h, hd⟩
      · exact Or.inl (List.mem_cons_of_mem _ h)
    · simp only [setFirstDC, if_neg hd] at h
      rcases List.mem_cons.mp h with h | h
      · exact Or.inl (by rw [h]; exact List.mem_cons_self _ _)
      · rcases ih h with h | ⟨d0, hd0, he, hi⟩
        · exact Or.inl (List.mem_cons_of_mem _ h)
        · exact Or.inr ⟨d0, List.mem_cons_of_mem _ hd0, he, hi⟩

theorem sum_bumpLoad (ds : List DataCenter) (i : String) (m : Int) :
    ((bumpLoad ds i m).map (fun d => d.currentLoad)).sum =
      (ds.map (fun d => d.currentLoad)).sum +
        (if (ds.find? (fun d => d.id = i)).isSome then m else 0) := by
  induction ds with
  | nil => simp [bumpLoad, setFirstDC]
  | cons d ds ih =>
    show ((if d.id = i then _ :: ds else d :: setFirstDC ds i _).map
      (fun d => d.currentLoad)).sum = _
    by_cases h : d.id = i
    · rw [if_pos h, List.find?_cons_of_pos _ (by simpa using h)]
      simp only [List.map_cons, List.sum_cons, Option.isSome_some, if_pos]
      ring
    · rw [if_neg h, List.find?_cons_of_neg _ (by simpa using h)]
      simp only [List.map_cons, List.sum_cons]
      rw [bumpLoad] at ih
      rw [ih]
      ring

/-! ### Python `min` fold -/

theorem pythonMinBy_mem (lt : DataCenter → DataCenter → Bool) (x : DataCenter)
    (xs : List DataCenter) : pythonMinBy lt x xs ∈ x :: xs := by
  induction xs generalizing x with
  | nil => exact List.mem_cons_self _ _
  | cons d xs ih =>
    show pythonMinBy lt (if lt d x then d else x) xs ∈ _
    by_cases hdx : lt d x
    · rw [if_pos hdx]
      rcases List.mem_cons.mp (ih d) with h | h
      · rw [h]
        exact List.mem_cons_of_mem _ (List.mem_cons_self _ _)
      · exact List.mem_cons_of_mem _ (List.mem_cons_of_mem _ h)
    · rw [if_neg hdx]
      rcases List.mem_cons.mp (ih x) with h | h
      · rw [h]
        exact List.mem_cons_self _ _
      · exact List.mem_cons_of_mem _ (List.mem_cons_of_mem _ h)

/-! ### Equation lemmas for the healing engine -/

theorem except_map_ok {α : Type} (f : System → α) (a : System) :
    (Except.ok a : Except HealErr System).map f = Except.ok (f a) := rfl

theorem except_map_error {α : Type} (f : System → α) (e : HealErr) :
    (Except.error e : Except HealErr System).map f = Except.error e := rfl

theorem except_bind_ok (f : System → Except HealErr System) (a : System) :
    ((Except.ok a : Except HealErr System) >>= f) = f a := rfl

theorem except_bind_error (f : System → Except HealErr System) (e : HealErr) :
    ((Except.error e : Except HealErr System) >>= f) = Except.error e := rfl

theorem healOverload_of_find_none (s : System) (i : String)
    (h : findDC s.orch i = none) : healOverload s i = Except.ok s := by
  unfold healOverload
  rw [h]

theorem healOverload_of_filter_nil (s : System) (i : String) (dc : DataCenter)
    (h1 : findDC s.orch i = some dc)
    (h2 : s.orch.datacenters.filter (fun d => ¬ d.id = i) = []) :
    healOverload s i = Except.error HealErr.noMigrationTarget := by
  unfold healOverload
  rw [h1, h2]

theorem healOverload_of_filter_cons (s : System) (i : String) (dc t : DataCenter)
    (ts : List DataCenter) (h1 : findDC s.orch i = some dc)
    (h2 : s.orch.datacenters.filter (fun d => ¬ d.id = i) = t :: ts) :
    healOverload s i = Except.ok
      { orch := { s.orch with
          datacenters := bumpLoad (bumpLoad s.orch.datacenters i (-(migrationAmount dc)))
            (pythonMinBy (fun a b => decide (RatioLT a b)) t ts).id (migrationAmount dc) },
        healingActions := s.healingActions + 1 } := by
  unfold healOverload
  rw [h1, h2]

theorem statusStep_of_none (s : System) (i : String)
    (h : findDC s.orch i = none) : statusStep s i = s := by
  unfold statusStep
  rw [h]

theorem statusStep_of_some (s : System) (i : String) (dc2 : DataCenter)
    (h : findDC s.orch i = some dc2) :
    statusStep s i =
      if ¬ dc2.status = RegionStatus.healthy then healDatacenter s i else s := by
  unfold statusStep
  rw [h]

theorem monitorStepDC_of_none (s : System) (i : String)
    (h : findDC s.orch i = none) : monitorStepDC s i = Except.ok s := by
  unfold monitorStepDC
  rw [h]

theorem monitorStepDC_of_some (s : System) (i : String) (dc : DataCenter)
    (h : findDC s.orch i = some dc) :
    monitorStepDC s i =
      (if Overloaded dc then healOverload s i else Except.ok s).map
        (fun s1 => statusStep s1 i) := by
  unfold monitorStepDC
  rw [h]

theorem monitorStepSvc_of_none (s : System) (i : String)
    (h : findSvc s.orch i = none) : monitorStepSvc s i = s := by
  unfold monitorStepSvc
  rw [h]

theorem monitorStepSvc_of_some (s : System) (i : String) (inst : ServiceInstance)
    (h : findSvc s.orch i = some inst) :
    monitorStepSvc s i = if UnhealthySvc inst then healService s i else s := by
  unfold monitorStepSvc
  rw [h]

theorem dcPhase_nil (s : System) : dcPhase s [] = Except.ok s := rfl

theorem dcPhase_cons (s : System) (i : String) (ids : List String) :
    dcPhase s (i :: ids) = (monitorStepDC s i >>= fun s1 => dcPhase s1 ids) := by
  unfold dcPhase
  rw [List.foldlM_cons]

theorem svcPhase_nil (s : System) : svcPhase s [] = s := rfl

theorem svcPhase_cons (s : System) (i : String) (ids : List String) :
    svcPhase s (i :: ids) = svcPhase (monitorStepSvc s i) ids := rfl

theorem find?_bumpLoad_ne (ds : List DataCenter) (i k : String) (m : Int) (hk : k ≠ i) :
    (bumpLoad ds i m).find? (fun d => d.id = k) = ds.find? (fun d => d.id = k) := by
  rw [bumpLoad]
  exact find?_setFirstDC_ne _ _ _ _ (fun d => rfl) hk

/-! ### Load conservation (C10) -/

theorem sum_setFirstDC_load_preserving (ds : List DataCenter) (i : String)
    (f : DataCenter → DataCenter) (hf : ∀ d, (f d).currentLoad = d.currentLoad) :
    ((setFirstDC ds i f).map (fun d => d.currentLoad)).sum =
      (ds.map (fun d => d.currentLoad)).sum := by
  induction ds with
  | nil => rfl
  | cons d ds ih =>
    show ((if d.id = i then _ :: ds else d :: setFirstDC ds i f).map
      (fun d => d.currentLoad)).sum = _
    by_cases h : d.id = i
    · rw [if_pos h]
      simp [hf]
    · rw [if_neg h]
      simp only [List.map_cons, List.sum_cons, ih]

theorem sum_healOverload (s s2 : System) (i : String)
    (h : healOverload s i = Except.ok s2) :
    sumLoads s2.orch = sumLoads s.orch := by
  cases hfind : findDC s.orch i with
  | none =>
    rw [healOverload_of_find_none s i hfind] at h
    cases h
    rfl
  | some dc =>
    cases hfil : s.orch.datacenters.filter (fun d => ¬ d.id = i) with
    | nil =>
      rw [healOverload_of_filter_nil s i dc hfind hfil] at h
      cases h
    | cons t ts =>
      rw [healOverload_of_filter_cons s i dc t ts hfind hfil] at h
      cases h
      have htmem : pythonMinBy (fun a b => decide (RatioLT a b)) t ts ∈ t :: ts :=
        pythonMinBy_mem _ t ts
      rw [← hfil] at htmem
      have htds := List.mem_of_mem_filter htmem
      have htne : ¬ (pythonMinBy (fun a b => decide (RatioLT a b)) t ts).id = i := by
        simpa using List.of_mem_filter htmem
      unfold sumLoads
      simp only
      rw [sum_bumpLoad, sum_bumpLoad]
      have h1 : ((s.orch.datacenters.find? (fun d => d.id = i)).isSome) = true := by
        unfold findDC at hfind
        rw [hfind]
        rfl
      have h2 : (((bumpLoad s.orch.datacenters i (-(migrationAmount dc))).find?
          (fun d => d.id = (pythonMinBy (fun a b => decide (RatioLT a b)) t ts).id)).isSome)
          = true := by
        rw [find?_bumpLoad_ne _ _ _ _ htne]
        rw [List.find?_isSome]
        exact ⟨_, htds, by simp⟩
      rw [if_pos h2, if_pos h1]
      ring

theorem sum_healDatacenter (s : System) (i : String) :
    sumLoads (healDatacenter s i).orch = sumLoads s.orch := by
  unfold healDatacenter sumLoads
  simp only
  exact sum_setFirstDC_load_preserving _ _ _ (fun d => rfl)

theorem sum_statusStep (s : System) (i : String) :
    sumLoads (statusStep s i).orch = sumLoads s.orch := by
  cases hfind : findDC s.orch i with
  | none => rw [statusStep_of_none s i hfind]
  | some dc2 =>
    rw [statusStep_of_some s i dc2 hfind]
    by_cases hst : ¬ dc2.status = RegionStatus.healthy
    · rw [if_pos hst]
      exact sum_healDatacenter s i
    · rw [if_neg hst]

theorem sum_monitorStepDC (s s2 : System) (i : String)
    (h : monitorStepDC s i = Except.ok s2) :
    sumLoads s2.orch = sumLoads s.orch := by
  cases hfind : findDC s.orch i with
  | none =>
    rw [monitorStepDC_of_none s i hfind] at h
    cases h
    rfl
  | some dc =>
    rw [monitorStepDC_of_some s i dc hfind] at h
    by_cases hov : Overloaded dc
    · rw [if_pos hov] at h
      cases hheal : healOverload s i with
      | error e =>
        rw [hheal, except_map_error] at h
        cases h
      | ok s1 =>
        rw [hheal, except_map_ok] at h
        cases h
        rw [sum_statusStep]
        exact sum_healOverload s s1 i hheal
    · rw [if_neg hov, except_map_ok] at h
      cases h
      rw [sum_statusStep]

theorem sum_dcPhase (ids : List String) (s s2 : System)
    (h : dcPhase s ids = Except.ok s2) :
    sumLoads s2.orch = sumLoads s.orch := by
  induction ids generalizing s with
  | nil =>
    rw [dcPhase_nil] at h
    cases h
    rfl
  | cons i ids ih =>
    rw [dcPhase_cons] at h
    cases hstep : monitorStepDC s i with
    | error e =>
      rw [hstep, except_bind_error] at h
      cases h
    | ok s1 =>
      rw [hstep, except_bind_ok] at h
      rw [ih s1 h, sum_monitorStepDC s s1 i hstep]

theorem datacenters_healService (s : System) (i : String) :
    (healService s i).orch.datacenters = s.orch.datacenters := rfl

theorem datacenters_svcPhase (ids : List String) (s : System) :
    (svcPhase s ids).orch.datacenters = s.orch.datacenters := by
  induction ids generalizing s with
  | nil => rfl
  | cons i ids ih =>
    rw [svcPhase_cons, ih]
    cases hfind : findSvc s.orch i with
    | none => rw [monitorStepSvc_of_none s i hfind]
    | some inst =>
      rw [monitorStepSvc_of_some s i inst hfind]
      by_cases hu : UnhealthySvc inst
      · rw [if_pos hu]
        rfl
      · rw [if_neg hu]

/-- C10: one `monitor_and_heal` cycle conserves the total pool load: a
migration subtracts from the source exactly the amount it adds to the
target, and no other healing action touches load. -/
theorem c10_cycle_conserves_total_load (s s2 : System)
    (h : monitorAndHeal s = Except.ok s2) :
    sumLoads s2.orch = sumLoads s.orch := by
  unfold monitorAndHeal at h
  cases hdc : dcPhase s (s.orch.datacenters.map (fun d => d.id)) with
  | error e =>
    rw [hdc, except_bind_error] at h
    cases h
  | ok s1 =>
    rw [hdc, except_bind_ok] at h
    cases h
    have h1 := sum_dcPhase _ s s1 hdc
    unfold sumLoads
    rw [datacenters_svcPhase]
    exact h1

/-- C10 witness: the spec scenario registry, concretely. -/
theorem c10_witness :
    monitorAndHeal { orch := scenarioAB, healingActions := 0 } =
      Except.ok { orch := mkOrch [mkDC "A" 100 77 .healthy 10, mkDC "B" 100 19 .healthy 20] [],
                  healingActions := 1 } ∧
    sumLoads (mkOrch [mkDC "A" 100 77 .healthy 10, mkDC "B" 100 19 .healthy 20] []) =
      sumLoads scenarioAB := by
  constructor
  · decide
  · exact c10_cycle_conserves_total_load
      { orch := scenarioAB, healingActions := 0 }
      { orch := mkOrch [mkDC "A" 100 77 .healthy 10, mkDC "B" 100 19 .healthy 20] [],
        healingActions := 1 }
      (by decide)

/-! ### Load non-negativity (C1) -/

theorem mem_setFirstDC_find? (ds : List DataCenter) (i : String) (f : DataCenter → DataCenter)
    (d' : DataCenter) (h : d' ∈ setFirstDC ds i f) :
    d' ∈ ds ∨ ∃ d, ds.find? (fun x => x.id = i) = some d ∧ d' = f d := by
  induction ds with
  | nil => simp [setFirstDC] at h
  | cons d ds ih =>
    by_cases hd : d.id = i
    · simp only [setFirstDC, if_pos hd] at h
      rcases List.mem_cons.mp h with h | h
      · exact Or.inr ⟨d, List.find?_cons_of_pos _ (by simpa using hd), h⟩
      · exact Or.inl (List.mem_cons_of_mem _ h)
    · simp only [setFirstDC, if_neg hd] at h
      rcases List.mem_cons.mp h with h | h
      · exact Or.inl (by rw [h]; exact List.mem_cons_self _ _)
      · rcases ih h with h | ⟨d0, hfind, he⟩
        · exact Or.inl (List.mem_cons_of_mem _ h)
        · exact Or.inr ⟨d0, by rw [List.find?_cons_of_neg _ (by simpa using hd)]; exact hfind, he⟩

theorem bumpLoad_nonneg (ds : List DataCenter) (i : String) (m : Int)
    (h : ∀ d ∈ ds, 0 ≤ d.currentLoad) (hm : 0 ≤ m) :
    ∀ d' ∈ bumpLoad ds i m, 0 ≤ d'.currentLoad := by
  intro d' hd'
  rcases mem_setFirstDC_find? ds i _ d' hd' with hmem | ⟨d, hfind, he⟩
  · exact h d' hmem
  · have hd := h d (List.mem_of_find?_eq_some hfind)
    rw [he]
    simp only
    omega

theorem migrationAmount_nonneg (dc : DataCenter) (h : 0 ≤ dc.currentLoad) :
    0 ≤ migrationAmount dc :=
  Int.tdiv_nonneg h (by norm_num)

theorem migrationAmount_le (dc : DataCenter) (h : 0 ≤ dc.currentLoad) :
    migrationAmount dc ≤ dc.currentLoad := by
  unfold migrationAmount
  rw [Int.tdiv_eq_ediv h (by norm_num)]
  exact Int.ediv_le_self 5 h

theorem healOverload_nonneg (s s2 : System) (i : String)
    (h : ∀ d ∈ s.orch.datacenters, 0 ≤ d.currentLoad)
    (hok : healOverload s i = Except.ok s2) :
    ∀ d ∈ s2.orch.datacenters, 0 ≤ d.currentLoad := by
  cases hfind : findDC s.orch i with
  | none =>
    rw [healOverload_of_find_none s i hfind] at hok
    cases hok
    exact h
  | some dc =>
    cases hfil : s.orch.datacenters.filter (fun d => ¬ d.id = i) with
    | nil =>
      rw [healOverload_of_filter_nil s i dc hfind hfil] at hok
      cases hok
    | cons t ts =>
      rw [healOverload_of_filter_cons s i dc t ts hfind hfil] at hok
      cases hok
      have hdcmem : dc ∈ s.orch.datacenters := by
        unfold findDC at hfind
        exact List.mem_of_find?_eq_some hfind
      have hdc0 : 0 ≤ dc.currentLoad := h dc hdcmem
      have hm0 : 0 ≤ migrationAmount dc := migrationAmount_nonneg dc hdc0
      have hmle : migrationAmount dc ≤ dc.currentLoad := migrationAmount_le dc hdc0
      apply bumpLoad_nonneg _ _ _ _ hm0
      intro d' hd'
      rcases mem_setFirstDC_find? _ _ _ d' hd' with hmem | ⟨d0, hfind0, he⟩
      · exact h d' hmem
      · have : d0 = dc := by
          unfold findDC at hfind
          rw [hfind0] at hfind
          exact Option.some_injective _ hfind
        rw [he, this]
        simp only
        omega

theorem deployFold_nonneg (chosen : List DataCenter) (name : String) (now : Nat)
    (acc : List String × Orchestrator)
    (h : ∀ d ∈ acc.2.datacenters, 0 ≤ d.currentLoad) :
    ∀ d ∈ (chosen.foldl (deployStep name now) acc).2.datacenters, 0 ≤ d.currentLoad := by
  induction chosen generalizing acc with
  | nil => exact h
  | cons c cs ih =>
    rw [List.foldl_cons]
    apply ih
    exact bumpLoad_nonneg _ _ _ h (by norm_num)

theorem deployService_nonneg (o : Orchestrator) (name : String) (replicas : Nat) (now : Nat)
    (h : ∀ d ∈ o.datacenters, 0 ≤ d.currentLoad) :
    ∀ d ∈ (deployService o name replicas now).2.datacenters, 0 ≤ d.currentLoad := by
  unfold deployService
  exact deployFold_nonneg _ name now ([], o) h

theorem applyOp_nonneg (s : System) (op : LoadOp)
    (h : LoadsNonneg s.orch) : LoadsNonneg (applyOp s op).orch := by
  cases op with
  | deploy name replicas now =>
    exact deployService_nonneg s.orch name replicas now h
  | overloadHeal i =>
    have hred : applyOp s (LoadOp.overloadHeal i) =
        match healOverload s i with
        | Except.ok s2 => s2
        | Except.error _ => s := rfl
    rw [hred]
    cases hheal : healOverload s i with
    | ok s2 => exact healOverload_nonneg s s2 i h hheal
    | error e => exact h

/-- C1: load non-negativity.  Starting from any state whose pool loads are
all nonnegative, every sequence of the source's load-mutating operations
(the per-instance `+= 1000` increments of `deploy_service` and the 20%
migration subtraction of `_heal_overload`) keeps every pool's
`current_load` nonnegative after every operation; moreover the only
subtraction the engine ever performs, `int(current_load * 0.2)`, is
nonnegative and never exceeds the load that is present, so no request ever
has to be clamped and no underflow can occur.  (A zero-capacity pool would
make Python raise `ZeroDivisionError` before mutating anything, so the
invariant also survives that path.) -/
theorem c1_load_nonneg (s : System) (h0 : LoadsNonneg s.orch) :
    (∀ op : LoadOp, LoadsNonneg (applyOp s op).orch) ∧
    (∀ ops : List LoadOp, LoadsNonneg (applyOps s ops).orch) ∧
    (∀ i dc, findDC s.orch i = some dc →
      0 ≤ migrationAmount dc ∧ migrationAmount dc ≤ dc.currentLoad) := by
  refine ⟨fun op => applyOp_nonneg s op h0, ?_, ?_⟩
  · intro ops
    induction ops generalizing s with
    | nil => exact h0
    | cons op ops ih =>
      exact ih (applyOp s op) (applyOp_nonneg s op h0)
  · intro i dc hfind
    have hdc : 0 ≤ dc.currentLoad := by
      apply h0
      unfold findDC at hfind
      exact List.mem_of_find?_eq_some hfind
    exact ⟨migrationAmount_nonneg dc hdc, migrationAmount_le dc hdc⟩

/-- C1 witness: the invariant holds concretely along a deploy followed by a
forced migration on the scenario registry. -/
theorem c1_witness :
    LoadsNonneg scenarioAB ∧
    LoadsNonneg (applyOps { orch := scenarioAB, healingActions := 0 }
      [LoadOp.deploy "svc" 2 0, LoadOp.overloadHeal "A"]).orch := by
  constructor
  · decide
  · exact (c1_load_nonneg { orch := scenarioAB, healingActions := 0 } (by decide)).2.1
      [LoadOp.deploy "svc" 2 0, LoadOp.overloadHeal "A"]

/-- C9: a registry with exactly one (overloaded) pool makes
`monitor_and_heal` raise an uncaught `ValueError` (`min()` of an empty
sequence in `_heal_overload`), terminating the cycle instead of completing
it: the error-containment claim fails on the code. -/
theorem c9_single_pool_cycle_crashes :
    monitorAndHeal { orch := singleOverloadedReg, healingActions := 0 } =
      Except.error HealErr.noMigrationTarget := by
  decide

/-- Splitting a repeated deployment. -/
theorem deployN_add (m n : Nat) (o : Orchestrator) :
    deployN (m + n) o = deployN n (deployN m o) := by
  induction m generalizing o with
  | zero => simp [deployN]
  | succ k ih =>
    have : k + 1 + n = (k + n) + 1 := by omega
    rw [this]
    show deployN (k + n) _ = _
    rw [ih]
    rfl

set_option maxRecDepth 40000 in
theorem deployN_chunk1 : deployN 50 initialRegistry = uniformFleet 50000 := by decide

set_option maxRecDepth 40000 in
theorem deployN_chunk2 : deployN 50 (uniformFleet 50000) = uniformFleet 100000 := by decide

set_option maxRecDepth 40000 in
theorem deployN_chunk3 : deployN 50 (uniformFleet 100000) = uniformFleet 150000 := by decide

set_option maxRecDepth 40000 in
theorem deployN_chunk4 : deployN 50 (uniformFleet 150000) = uniformFleet 200000 := by decide

/-- The reachable state used against the one-cycle recovery claim. -/
theorem c7Reach_eq : c7Reach = uniformFleet 200000 := by
  show deployN 200 initialRegistry = _
  have h200 : (200 : Nat) = 50 + 50 + 50 + 50 := by norm_num
  rw [h200, deployN_add, deployN_add, deployN_add,
      deployN_chunk1, deployN_chunk2, deployN_chunk3, deployN_chunk4]

set_option maxRecDepth 40000 in
/-- C7 counterexample: from the program's own initializer, 200
`deploy_service("svc", 12)` calls drive pool `aws-us-east-1` to load
200000, twice its capacity of 100000; after one further full
`monitor_and_heal` cycle its load is 208000, still above capacity.  The
system therefore does leave a pool above capacity for more than one
monitoring cycle. -/
theorem c7_counterexample :
    loadOf c7Reach "aws-us-east-1" = some 200000 ∧
    (findDC c7Reach "aws-us-east-1").map (fun d => d.capacity) = some 100000 ∧
    (monitorAndHeal { orch := c7Reach, healingActions := 0 }).map
      (fun s => loadOf s.orch "aws-us-east-1") = Except.ok (some 208000) ∧
    (100000 : Int) < 200000 ∧ (100000 : Int) < 208000 := by
  refine ⟨?_, ?_, ?_, by norm_num, by norm_num⟩
  · rw [c7Reach_eq]; decide
  · rw [c7Reach_eq]; decide
  · rw [c7Reach_eq]; decide

/-! ### Instance table lemmas (C5, C8) -/

theorem eraseList_nil (svcs : List ServiceInstance) : eraseList svcs [] = svcs := rfl

theorem eraseList_cons (svcs : List ServiceInstance) (r : ServiceInstance)
    (R : List ServiceInstance) :
    eraseList svcs (r :: R) = eraseList (eraseSvc svcs r.id) R := rfl

theorem eraseSvc_mem_iff (svcs : List ServiceInstance) (inst : ServiceInstance)
    (hn : (svcs.map ServiceInstance.id).Nodup) (hi : inst ∈ svcs) (x : ServiceInstance) :
    x ∈ eraseSvc svcs inst.id ↔ x ∈ svcs ∧ x ≠ inst := by
  induction svcs with
  | nil => cases hi
  | cons y ys ih =>
    rw [List.map_cons, List.nodup_cons] at hn
    by_cases hy : y.id = inst.id
    · have hyinst : y = inst := by
        rcases List.mem_cons.mp hi with h | h
        · exact h.symm
        · exact absurd (hy ▸ List.mem_map_of_mem ServiceInstance.id h) hn.1
      have herase : eraseSvc (y :: ys) inst.id = ys := by
        unfold eraseSvc
        exact List.eraseP_cons_of_pos (by simpa using hy)
      rw [herase]
      constructor
      · intro hx
        refine ⟨List.mem_cons_of_mem _ hx, ?_⟩
        intro hxe
        rw [hxe, ← hyinst] at hx
        exact hn.1 (List.mem_map_of_mem ServiceInstance.id hx)
      · rintro ⟨hx, hne⟩
        rcases List.mem_cons.mp hx with h | h
        · exact absurd (h.trans hyinst) hne
        · exact h
    · have hiys : inst ∈ ys := by
        rcases List.mem_cons.mp hi with h | h
        · exact absurd (by rw [h]) hy
        · exact h
      have herase : eraseSvc (y :: ys) inst.id = y :: eraseSvc ys inst.id := by
        unfold eraseSvc
        exact List.eraseP_cons_of_neg (by simpa using hy)
      rw [herase]
      constructor
      · intro hx
        rcases List.mem_cons.mp hx with h | h
        · refine ⟨by rw [h]; exact List.mem_cons_self _ _, ?_⟩
          intro hxe
          rw [hxe] at h
          exact hy (by rw [h])
        · have := (ih hn.2 hiys).mp h
          exact ⟨List.mem_cons_of_mem _ this.1, this.2⟩
      · rintro ⟨hx, hne⟩
        rcases List.mem_cons.mp hx with h | h
        · rw [h]
          exact List.mem_cons_self _ _
        · exact List.mem_cons_of_mem _ ((ih hn.2 hiys).mpr ⟨h, hne⟩)

theorem map_id_eraseSvc_sublist (svcs : List ServiceInstance) (i : String) :
    List.Sublist ((eraseSvc svcs i).map ServiceInstance.id) (svcs.map ServiceInstance.id) :=
  (List.eraseP_sublist _).map _

theorem nodup_eraseSvc (svcs : List ServiceInstance) (i : String)
    (hn : (svcs.map ServiceInstance.id).Nodup) :
    ((eraseSvc svcs i).map ServiceInstance.id).Nodup :=
  hn.sublist (map_id_eraseSvc_sublist svcs i)

theorem countSvcList_eraseSvc (svcs : List ServiceInstance) (inst : ServiceInstance)
    (name : String) (hn : (svcs.map ServiceInstance.id).Nodup) (hi : inst ∈ svcs)
    (hname : inst.serviceName = name) :
    countSvcList svcs name = countSvcList (eraseSvc svcs inst.id) name + 1 := by
  induction svcs with
  | nil => cases hi
  | cons y ys ih =>
    rw [List.map_cons, List.nodup_cons] at hn
    by_cases hy : y.id = inst.id
    · have hyinst : y = inst := by
        rcases List.mem_cons.mp hi with h | h
        · exact h.symm
        · exact absurd (hy ▸ List.mem_map_of_mem ServiceInstance.id h) hn.1
      have herase : eraseSvc (y :: ys) inst.id = ys := by
        unfold eraseSvc
        exact List.eraseP_cons_of_pos (by simpa using hy)
      rw [herase]
      unfold countSvcList
      rw [List.filter_cons_of_pos (by simp [hyinst, hname])]
      rfl
    · have hiys : inst ∈ ys := by
        rcases List.mem_cons.mp hi with h | h
        · exact absurd (by rw [h]) hy
        · exact h
      have herase : eraseSvc (y :: ys) inst.id = y :: eraseSvc ys inst.id := by
        unfold eraseSvc
        exact List.eraseP_cons_of_neg (by simpa using hy)
      rw [herase]
      unfold countSvcList
      by_cases hyn : y.serviceName = name
      · rw [List.filter_cons_of_pos (by simpa using hyn),
            List.filter_cons_of_pos (by simpa using hyn)]
        have := ih hn.2 hiys
        unfold countSvcList at this
        simp only [List.length_cons]
        omega
      · rw [List.filter_cons_of_neg (by simpa using hyn),
            List.filter_cons_of_neg (by simpa using hyn)]
        exact ih hn.2 hiys

theorem eraseList_mem_iff (R : List ServiceInstance) (svcs : List ServiceInstance)
    (hn : (svcs.map ServiceInstance.id).Nodup) (hR : ∀ r ∈ R, r ∈ svcs)
    (hRn : (R.map ServiceInstance.id).Nodup) (x : ServiceInstance) :
    x ∈ eraseList svcs R ↔ x ∈ svcs ∧ x ∉ R := by
  induction R generalizing svcs with
  | nil => simp [eraseList_nil]
  | cons r R ih =>
    rw [List.map_cons, List.nodup_cons] at hRn
    have hr : r ∈ svcs := hR r (List.mem_cons_self _ _)
    rw [eraseList_cons]
    have hsub : ∀ q ∈ R, q ∈ eraseSvc svcs r.id := by
      intro q hq
      refine (eraseSvc_mem_iff svcs r hn hr q).mpr ⟨hR q (List.mem_cons_of_mem _ hq), ?_⟩
      intro hqe
      rw [hqe] at hq
      exact hRn.1 (List.mem_map_of_mem ServiceInstance.id hq)
    rw [ih (eraseSvc svcs r.id) (nodup_eraseSvc svcs r.id hn) hsub hRn.2,
        eraseSvc_mem_iff svcs r hn hr x]
    constructor
    · rintro ⟨⟨h1, h2⟩, h3⟩
      refine ⟨h1, ?_⟩
      intro hx
      rcases List.mem_cons.mp hx with h | h
      · exact h2 h
      · exact h3 h
    · rintro ⟨h1, h2⟩
      exact ⟨⟨h1, fun he => h2 (by rw [he]; exact List.mem_cons_self _ _)⟩,
        fun hm => h2 (List.mem_cons_of_mem _ hm)⟩

theorem countSvcList_eraseList (R : List ServiceInstance) (svcs : List ServiceInstance)
    (name : String) (hn : (svcs.map ServiceInstance.id).Nodup) (hR : ∀ r ∈ R, r ∈ svcs)
    (hRn : (R.map ServiceInstance.id).Nodup) (hRname : ∀ r ∈ R, r.serviceName = name) :
    countSvcList svcs name = countSvcList (eraseList svcs R) name + R.length := by
  induction R generalizing svcs with
  | nil => simp [eraseList_nil]
  | cons r R ih =>
    rw [List.map_cons, List.nodup_cons] at hRn
    have hr : r ∈ svcs := hR r (List.mem_cons_self _ _)
    have hsub : ∀ q ∈ R, q ∈ eraseSvc svcs r.id := by
      intro q hq
      refine (eraseSvc_mem_iff svcs r hn hr q).mpr ⟨hR q (List.mem_cons_of_mem _ hq), ?_⟩
      intro hqe
      rw [hqe] at hq
      exact hRn.1 (List.mem_map_of_mem ServiceInstance.id hq)
    rw [eraseList_cons]
    have h1 := countSvcList_eraseSvc svcs r name hn hr (hRname r (List.mem_cons_self _ _))
    have h2 := ih (eraseSvc svcs r.id) (nodup_eraseSvc svcs r.id hn) hsub hRn.2
      (fun q hq => hRname q (List.mem_cons_of_mem _ hq))
    simp only [List.length_cons]
    omega

theorem scaleService_down_eq (o : Orchestrator) (name : String) (target : Nat) (now : Nat)
    (hlt : target < countService o name) :
    scaleService o name target now =
      { o with services :=
          eraseList o.services (((serviceInstancesOf o name).drop target).reverse) } := by
  have hc : countService o name = (serviceInstancesOf o name).length := rfl
  show (if target > (serviceInstancesOf o name).length then _
    else if target < (serviceInstancesOf o name).length then _ else _) = _
  rw [if_neg (by omega), if_pos (by omega)]

theorem countService_scaleDown (o : Orchestrator) (name : String) (target : Nat) (now : Nat)
    (hn : (o.services.map ServiceInstance.id).Nodup) (hlt : target < countService o name) :
    countService (scaleService o name target now) name = target := by
  rw [scaleService_down_eq o name target now hlt]
  show countSvcList (eraseList o.services (((serviceInstancesOf o name).drop target).reverse))
    name = target
  have hFsub : List.Sublist (serviceInstancesOf o name) o.services := List.filter_sublist _
  have hR : ∀ r ∈ ((serviceInstancesOf o name).drop target).reverse, r ∈ o.services := by
    intro r hr
    rw [List.mem_reverse] at hr
    exact hFsub.subset (List.drop_subset _ _ hr)
  have hRn : ((((serviceInstancesOf o name).drop target).reverse).map
      ServiceInstance.id).Nodup := by
    rw [List.map_reverse, List.nodup_reverse, List.map_drop]
    exact (hn.sublist (hFsub.map _)).sublist (List.drop_sublist _ _)
  have hRname : ∀ r ∈ ((serviceInstancesOf o name).drop target).reverse,
      r.serviceName = name := by
    intro r hr
    rw [List.mem_reverse] at hr
    have := List.of_mem_filter (List.drop_subset target _ hr)
    simpa using this
  have hkey := countSvcList_eraseList _ o.services name hn hR hRn hRname
  have hlen : (((serviceInstancesOf o name).drop target).reverse).length =
      countService o name - target := by
    rw [List.length_reverse, List.length_drop]
    rfl
  unfold countService at hlt hkey hlen
  omega

theorem upsertService_append (svcs : List ServiceInstance) (inst : ServiceInstance)
    (h : inst.id ∉ svcs.map ServiceInstance.id) :
    upsertService svcs inst = svcs ++ [inst] := by
  induction svcs with
  | nil => rfl
  | cons y ys ih =>
    rw [List.map_cons] at h
    have hy : ¬ y.id = inst.id := by
      intro hc
      exact h (by rw [← hc]; exact List.mem_cons_self _ _)
    show (if y.id = inst.id then _ else y :: upsertService ys inst) = _
    rw [if_neg hy, ih (fun hm => h (List.mem_cons_of_mem _ hm))]
    rfl

theorem countSvcList_append (a b : List ServiceInstance) (name : String) :
    countSvcList (a ++ b) name = countSvcList a name + countSvcList b name := by
  unfold countSvcList
  rw [List.filter_append, List.length_append]

theorem countSvcList_deployFold (chosen : List DataCenter) (name : String) (now : Nat)
    (acc : List String × Orchestrator)
    (h1 : (chosen.map (fun dc => mkInstanceId name dc.id now)).Nodup)
    (h2 : ∀ dc ∈ chosen, mkInstanceId name dc.id now ∉ acc.2.services.map ServiceInstance.id) :
    countSvcList (chosen.foldl (deployStep name now) acc).2.services name =
      countSvcList acc.2.services name + chosen.length := by
  induction chosen generalizing acc with
  | nil => rfl
  | cons c cs ih =>
    rw [List.map_cons, List.nodup_cons] at h1
    rw [List.foldl_cons]
    have hfresh := h2 c (List.mem_cons_self _ _)
    have hstep : (deployStep name now acc c).2.services =
        acc.2.services ++
          [{ id := mkInstanceId name c.id now, serviceName := name, datacenterId := c.id,
             cpuTenths := 0, memoryTenths := 0, requestsPerSec := 0, healthTenths := 10 }] := by
      show upsertService acc.2.services _ = _
      exact upsertService_append _ _ hfresh
    have h2' : ∀ dc ∈ cs, mkInstanceId name dc.id now ∉
        (deployStep name now acc c).2.services.map ServiceInstance.id := by
      intro dc hdc
      rw [hstep, List.map_append]
      intro hmem
      rcases List.mem_append.mp hmem with hmem | hmem
      · exact h2 dc (List.mem_cons_of_mem _ hdc) hmem
      · simp only [List.map_cons, List.map_nil, List.mem_cons, List.not_mem_nil,
          or_false] at hmem
        exact h1.1 (hmem ▸ List.mem_map_of_mem _ hdc)
    rw [ih (deployStep name now acc c) h1.2 h2', hstep, countSvcList_append]
    have : countSvcList
        [{ id := mkInstanceId name c.id now, serviceName := name, datacenterId := c.id,
           cpuTenths := 0, memoryTenths := 0, requestsPerSec := 0,
           healthTenths := 10 }] name = 1 := by
      unfold countSvcList
      rw [List.filter_cons_of_pos (by simp)]
      rfl
    rw [this]
    simp only [List.length_cons]
    omega

theorem length_insertByRatio (x : DataCenter) (s : List DataCenter) :
    (insertByRatio x s).length = s.length + 1 := by
  induction s with
  | nil => rfl
  | cons y ys ih =>
    show (if RatioLT y x then y :: insertByRatio x ys else x :: y :: ys).length = _
    by_cases h : RatioLT y x
    · rw [if_pos h]
      simp only [List.length_cons, ih]
    · rw [if_neg h]
      rfl

theorem length_stableSortByRatio (l : List DataCenter) :
    (stableSortByRatio l).length = l.length := by
  induction l with
  | nil => rfl
  | cons x xs ih =>
    show (insertByRatio x (stableSortByRatio xs)).length = _
    rw [length_insertByRatio, ih]
    rfl

theorem length_deploySelect (o : Orchestrator) (k : Nat) :
    (deploySelect o k).length = min k o.datacenters.length := by
  unfold deploySelect
  rw [List.length_take, length_stableSortByRatio]

theorem countService_deployService (o : Orchestrator) (name : String) (k : Nat) (now : Nat)
    (hf : FreshIds o name k now) :
    countService (deployService o name k now).2 name =
      countService o name + (deploySelect o k).length := by
  unfold countService deployService
  apply countSvcList_deployFold
  · exact hf.1
  · intro dc hdc
    exact hf.2 _ (List.mem_map_of_mem _ hdc)

/-- C5 counterexample: with a single pool in the registry and no instances
of `svc`, `scale_service("svc", 3)` ends with 1 instance, not 3:
`deploy_service` can only select as many pools as exist, so the scale-up
path does not reach the target when the shortfall exceeds the pool count.
The claim "the instance count equals exactly N regardless of the starting
count" is therefore false as stated. -/
theorem c5_counterexample :
    singleOverloadedReg.datacenters.length = 1 ∧
    countService singleOverloadedReg "svc" = 0 ∧
    countService (scaleService singleOverloadedReg "svc" 3 0) "svc" = 1 ∧
    (1 : Nat) ≠ 3 := by
  decide

/-- C5 (amended): after `reconcile(s, N)` the instance count of `s` equals
exactly `N` on the scale-down and no-op paths (`N ≤ current`), and on the
scale-up path provided the shortfall `N - current` does not exceed the
number of pools and the generated instance ids are fresh (no id collision
with existing instances or among themselves). -/
theorem c5_autoscale_exactness (o : Orchestrator) (name : String) (target : Nat) (now : Nat)
    (hn : (o.services.map ServiceInstance.id).Nodup) :
    (target ≤ countService o name →
      countService (scaleService o name target now) name = target) ∧
    (countService o name < target →
      target - countService o name ≤ o.datacenters.length →
      FreshIds o name (target - countService o name) now →
      countService (scaleService o name target now) name = target) := by
  constructor
  · intro hle
    rcases Nat.lt_or_ge target (countService o name) with hlt | hge
    · exact countService_scaleDown o name target now hn hlt
    · have heq : target = countService o name := le_antisymm hle hge
      have hc : countService o name = (serviceInstancesOf o name).length := rfl
      have hscale : scaleService o name target now = o := by
        show (if target > (serviceInstancesOf o name).length then _
          else if target < (serviceInstancesOf o name).length then _ else _) = _
        rw [if_neg (by omega), if_neg (by omega)]
      rw [hscale, heq]
  · intro hlt hpool hf
    have hc : countService o name = (serviceInstancesOf o name).length := rfl
    have hscale : scaleService o name target now =
        (deployService o name (target - (serviceInstancesOf o name).length) now).2 := by
      show (if target > (serviceInstancesOf o name).length then _
        else if target < (serviceInstancesOf o name).length then _ else _) = _
      rw [if_pos (by omega)]
    rw [hscale]
    rw [← hc]
    rw [countService_deployService o name _ now hf, length_deploySelect]
    omega

/-- C5 witness: scale-up 0 → 2 on a two-pool registry and scale-down
1 → 0, both landing exactly on the target. -/
theorem c5_witness :
    countService (scaleService tieRatioReg "svc" 2 7) "svc" = 2 ∧
    countService (scaleService oneInstanceReg "svc" 0 7) "svc" = 0 := by
  constructor
  · exact (c5_autoscale_exactness tieRatioReg "svc" 2 7 (by decide)).2
      (by decide) (by decide) (by decide)
  · exact (c5_autoscale_exactness oneInstanceReg "svc" 0 7 (by decide)).1 (by decide)

/-- C8 counterexample: deleting the only instance of `svc` (scale-down to
0) leaves its pool's `current_load` at 1000: the code's scale-down path
deletes the registry entry but never decrements the hosting pool's load,
so no per-instance unit is released (the claim expects load 0). -/
theorem c8_counterexample :
    countService (scaleService oneInstanceReg "svc" 0 0) "svc" = 0 ∧
    loadOf (scaleService oneInstanceReg "svc" 0 0) "p" = some 1000 ∧
    ¬ loadOf (scaleService oneInstanceReg "svc" 0 0) "p" = some 0 := by
  decide

/-- C8 (amended): the scale-down path deletes exactly the most recently
created instances of the service (the kept instances are the `target`
oldest; the dropped ones are gone) and leaves the datacenter registry —
hence every pool's `current_load` — entirely unchanged: no load is
released. -/
theorem c8_scaledown_releases_no_load (o : Orchestrator) (name : String) (target : Nat)
    (now : Nat) (hn : (o.services.map ServiceInstance.id).Nodup)
    (hlt : target < countService o name) :
    (scaleService o name target now).datacenters = o.datacenters ∧
    countService (scaleService o name target now) name = target ∧
    (∀ x ∈ (serviceInstancesOf o name).take target,
      x ∈ (scaleService o name target now).services) ∧
    (∀ x ∈ (serviceInstancesOf o name).drop target,
      x ∉ (scaleService o name target now).services) := by
  have hFsub : List.Sublist (serviceInstancesOf o name) o.services := List.filter_sublist _
  have hFid : ((serviceInstancesOf o name).map ServiceInstance.id).Nodup :=
    hn.sublist (hFsub.map _)
  have hFnodup : (serviceInstancesOf o name).Nodup := hFid.of_map
  have hR : ∀ r ∈ ((serviceInstancesOf o name).drop target).reverse, r ∈ o.services := by
    intro r hr
    rw [List.mem_reverse] at hr
    exact hFsub.subset (List.drop_subset _ _ hr)
  have hRn : ((((serviceInstancesOf o name).drop target).reverse).map
      ServiceInstance.id).Nodup := by
    rw [List.map_reverse, List.nodup_reverse, List.map_drop]
    exact hFid.sublist (List.drop_sublist _ _)
  have hiff := eraseList_mem_iff _ o.services hn hR hRn
  refine ⟨?_, countService_scaleDown o name target now hn hlt, ?_, ?_⟩
  · rw [scaleService_down_eq o name target now hlt]
  · intro x hx
    rw [scaleService_down_eq o name target now hlt]
    show x ∈ eraseList o.services _
    refine (hiff x).mpr ⟨hFsub.subset (List.take_subset _ _ hx), ?_⟩
    intro hmem
    rw [List.mem_reverse] at hmem
    have hdisj : (serviceInstancesOf o name).Nodup := hFnodup
    rw [← List.take_append_drop target (serviceInstancesOf o name),
      List.nodup_append] at hdisj
    exact hdisj.2.2 hx hmem
  · intro x hx
    rw [scaleService_down_eq o name target now hlt]
    show ¬ x ∈ eraseList o.services _
    intro hmem
    exact ((hiff x).mp hmem).2 (by rw [List.mem_reverse]; exact hx)

/-- C8 witness: the amended behaviour on the one-instance registry. -/
theorem c8_witness :
    (scaleService oneInstanceReg "svc" 0 7).datacenters = oneInstanceReg.datacenters ∧
    countService (scaleService oneInstanceReg "svc" 0 7) "svc" = 0 := by
  have h := c8_scaledown_releases_no_load oneInstanceReg "svc" 0 7 (by decide) (by decide)
  exact ⟨h.1, h.2.1⟩

/-! ### Stable ratio sort lemmas (C2) -/

theorem insertByRatio_split (x : DataCenter) (s : List DataCenter) :
    ∃ s1 s2, insertByRatio x s = s1 ++ x :: s2 ∧ s = s1 ++ s2 ∧
      ∀ y ∈ s1, RatioLT y x := by
  induction s with
  | nil => exact ⟨[], [], rfl, rfl, by simp⟩
  | cons y ys ih =>
    by_cases h : RatioLT y x
    · obtain ⟨s1, s2, h1, h2, h3⟩ := ih
      refine ⟨y :: s1, s2, ?_, ?_, ?_⟩
      · show (if RatioLT y x then y :: insertByRatio x ys else _) = _
        rw [if_pos h, h1]
        rfl
      · rw [List.cons_append, h2]
      · intro z hz
        rcases List.mem_cons.mp hz with hz | hz
        · rw [hz]; exact h
        · exact h3 z hz
    · refine ⟨[], y :: ys, ?_, rfl, by simp⟩
      show (if RatioLT y x then y :: insertByRatio x ys else x :: y :: ys) = _
      rw [if_neg h]
      rfl

theorem mem_insertByRatio (a x : DataCenter) (s : List DataCenter) :
    a ∈ insertByRatio x s ↔ a = x ∨ a ∈ s := by
  obtain ⟨s1, s2, h1, h2, _⟩ := insertByRatio_split x s
  rw [h1, h2]
  simp only [List.mem_append, List.mem_cons]
  tauto

theorem mem_stableSortByRatio (a : DataCenter) (l : List DataCenter) :
    a ∈ stableSortByRatio l ↔ a ∈ l := by
  induction l with
  | nil => rfl
  | cons x xs ih =>
    show a ∈ insertByRatio x (stableSortByRatio xs) ↔ _
    rw [mem_insertByRatio, ih, List.mem_cons]

theorem ratioLT_asymm (a b : DataCenter) (h1 : RatioLT a b) (h2 : RatioLE b a) : False := by
  unfold RatioLT at h1
  unfold RatioLE at h2
  omega

theorem not_ratioLT (a b : DataCenter) : ¬ RatioLT a b ↔ RatioLE b a := by
  unfold RatioLT RatioLE
  omega

theorem ratioLE_trans (a b c : DataCenter) (ha : 0 ≤ a.capacity) (hb : 0 < b.capacity)
    (hc : 0 ≤ c.capacity) (hab : RatioLE a b) (hbc : RatioLE b c) : RatioLE a c := by
  unfold RatioLE at hab hbc ⊢
  nlinarith [mul_le_mul_of_nonneg_right hab hc, mul_le_mul_of_nonneg_right hbc ha]

theorem pairwise_insertByRatio (x : DataCenter) (s : List DataCenter)
    (hcap : ∀ d ∈ x :: s, 0 < d.capacity) (hs : s.Pairwise RatioLE) :
    (insertByRatio x s).Pairwise RatioLE := by
  induction s with
  | nil => simp [insertByRatio]
  | cons y ys ih =>
    rw [List.pairwise_cons] at hs
    by_cases h : RatioLT y x
    · show List.Pairwise _ (if RatioLT y x then y :: insertByRatio x ys else _)
      rw [if_pos h, List.pairwise_cons]
      constructor
      · intro z hz
        rcases (mem_insertByRatio z x ys).mp hz with hz | hz
        · rw [hz]
          unfold RatioLT at h
          unfold RatioLE
          omega
        · exact hs.1 z hz
      · refine ih ?_ hs.2
        intro d hd
        rcases List.mem_cons.mp hd with hd | hd
        · exact hcap d (by rw [hd]; exact List.mem_cons_self _ _)
        · exact hcap d (List.mem_cons_of_mem _ (List.mem_cons_of_mem _ hd))
    · show List.Pairwise _ (if RatioLT y x then _ else x :: y :: ys)
      rw [if_neg h, List.pairwise_cons]
      have hxy : RatioLE x y := (not_ratioLT y x).mp h
      constructor
      · intro z hz
        rcases List.mem_cons.mp hz with hz | hz
        · rw [hz]; exact hxy
        · refine ratioLE_trans x y z ?_ ?_ ?_ hxy (hs.1 z hz)
          · exact le_of_lt (hcap x (List.mem_cons_self _ _))
          · exact hcap y (List.mem_cons_of_mem _ (List.mem_cons_self _ _))
          · exact le_of_lt (hcap z (List.mem_cons_of_mem _ (List.mem_cons_of_mem _ hz)))
      · rw [List.pairwise_cons]
        exact hs

theorem pairwise_stableSortByRatio (l : List DataCenter)
    (hcap : ∀ d ∈ l, 0 < d.capacity) : (stableSortByRatio l).Pairwise RatioLE := by
  induction l with
  | nil => simp [stableSortByRatio]
  | cons x xs ih =>
    show List.Pairwise _ (insertByRatio x (stableSortByRatio xs))
    apply pairwise_insertByRatio
    · intro d hd
      rcases List.mem_cons.mp hd with hd | hd
      · exact hcap d (by rw [hd]; exact List.mem_cons_self _ _)
      · exact hcap d (List.mem_cons_of_mem _ ((mem_stableSortByRatio d xs).mp hd))
    · exact ih (fun d hd => hcap d (List.mem_cons_of_mem _ hd))

theorem pair_sublist_stableSortByRatio (q p : DataCenter) (l : List DataCenter)
    (hle : RatioLE q p) (hq : List.Sublist [q, p] l) :
    List.Sublist [q, p] (stableSortByRatio l) := by
  induction l with
  | nil => cases hq
  | cons a l ih =>
    show List.Sublist _ (insertByRatio a (stableSortByRatio l))
    obtain ⟨s1, s2, h1, h2, h3⟩ := insertByRatio_split a (stableSortByRatio l)
    cases hq with
    | cons _ h =>
      have hsub := ih h
      rw [h1]
      refine hsub.trans ?_
      rw [h2]
      exact (List.sublist_cons_self a s2).append_left s1
    | cons₂ _ h =>
      have hp : p ∈ stableSortByRatio l := by
        rw [mem_stableSortByRatio]
        exact (List.singleton_sublist).mp h
      rw [h2] at hp
      rcases List.mem_append.mp hp with hp | hp
      · exact absurd hle (fun hle2 => ratioLT_asymm p q (h3 p hp) hle2)
      · rw [h1]
        have step1 : List.Sublist [q, p] (q :: s2) :=
          List.cons_sublist_cons.mpr (List.singleton_sublist.mpr hp)
        exact step1.trans (List.sublist_append_right s1 (q :: s2))

theorem deployFold_fst (chosen : List DataCenter) (name : String) (now : Nat)
    (acc : List String × Orchestrator) :
    (chosen.foldl (deployStep name now) acc).1 =
      acc.1 ++ chosen.map (fun dc => mkInstanceId name dc.id now) := by
  induction chosen generalizing acc with
  | nil => simp
  | cons c cs ih =>
    rw [List.foldl_cons, ih]
    show (acc.1 ++ [mkInstanceId name c.id now]) ++ _ = _
    rw [List.append_assoc]
    rfl

theorem perm_insertByRatio (x : DataCenter) (s : List DataCenter) :
    (insertByRatio x s).Perm (x :: s) := by
  obtain ⟨s1, s2, h1, h2, _⟩ := insertByRatio_split x s
  rw [h1, h2]
  exact List.perm_middle

theorem perm_stableSortByRatio (l : List DataCenter) :
    (stableSortByRatio l).Perm l := by
  induction l with
  | nil => rfl
  | cons x xs ih =>
    show (insertByRatio x (stableSortByRatio xs)).Perm _
    exact (perm_insertByRatio x (stableSortByRatio xs)).trans (ih.cons x)

/-- C2 counterexample: on two equal-ratio pools registered in the order
`b-pool`, `a-pool`, `deploy_service` selects `b-pool` (stable sort keeps
insertion order on ties), while the spec's id-ascending tie-break selects
`a-pool`: ties are not broken by pool id. -/
theorem c2_counterexample :
    (deploySelect tieRatioReg 1).map (fun d => d.id) = ["b-pool"] ∧
    placeSpecIdTieBreak tieRatioReg 1 = ["a-pool"] ∧
    (deployService tieRatioReg "svc" 1 7).1 = ["svc-b-pool-7"] ∧
    ("b-pool" : String) ≠ "a-pool" := by
  refine ⟨by decide, by decide, by decide, by decide⟩

/-- C2 (amended): `deploy_service` deterministically selects the
`replica_count` pools of smallest load ratio, breaking ratio ties by the
registry's insertion (iteration) order rather than by ascending pool id:
(i) the returned instance ids are exactly the selected pools' generated
ids, for any service name and clock, so identical snapshots always yield
the identical pool selection; (ii) `min(replicas, pool count)` pools are
selected; (iii) every selected pool's ratio is at most every unselected
pool's ratio; (iv) a pool registered earlier than some selected pool and
of smaller-or-equal ratio is itself selected (stability = insertion-order
tie-break). -/
theorem c2_placement_determinism (o : Orchestrator) (replicas : Nat)
    (hcap : CapsPos o) (hn : (o.datacenters.map DataCenter.id).Nodup) :
    (∀ name now, (deployService o name replicas now).1 =
      (deploySelect o replicas).map (fun dc => mkInstanceId name dc.id now)) ∧
    (deploySelect o replicas).length = min replicas o.datacenters.length ∧
    (∀ p ∈ deploySelect o replicas, ∀ q ∈ o.datacenters, q ∉ deploySelect o replicas →
      loadRatio p ≤ loadRatio q) ∧
    (∀ p q, p ∈ deploySelect o replicas → loadRatio q ≤ loadRatio p →
      List.Sublist [q, p] o.datacenters → q ∈ deploySelect o replicas) := by
  have hsorted : (stableSortByRatio o.datacenters).Pairwise RatioLE :=
    pairwise_stableSortByRatio o.datacenters hcap
  have hmemsort : ∀ a, a ∈ stableSortByRatio o.datacenters ↔ a ∈ o.datacenters :=
    fun a => mem_stableSortByRatio a o.datacenters
  refine ⟨?_, length_deploySelect o replicas, ?_, ?_⟩
  · intro name now
    unfold deployService
    rw [deployFold_fst]
    rfl
  · intro p hp q hq hqn
    have hq2 : q ∈ stableSortByRatio o.datacenters := (hmemsort q).mpr hq
    rw [← List.take_append_drop replicas (stableSortByRatio o.datacenters)] at hq2
    rcases List.mem_append.mp hq2 with hq2 | hq2
    · exact absurd hq2 hqn
    · have hps : List.Pairwise RatioLE
          ((stableSortByRatio o.datacenters).take replicas ++
           (stableSortByRatio o.datacenters).drop replicas) := by
        rw [List.take_append_drop]
        exact hsorted
      have hcross := (List.pairwise_append.mp hps).2.2 p hp q hq2
      have hpc : 0 < p.capacity := hcap p ((hmemsort p).mp (List.take_subset _ _ hp))
      have hqc : 0 < q.capacity :=
        hcap q ((hmemsort q).mp (List.drop_subset _ _ hq2))
      exact (ratioLE_iff_div p q hpc hqc).mp hcross
  · intro p q hp hle hsub
    have hpmem : p ∈ o.datacenters := (hmemsort p).mp (List.take_subset _ _ hp)
    have hqmem : q ∈ o.datacenters := hsub.subset (by simp)
    have hpc : 0 < p.capacity := hcap p hpmem
    have hqc : 0 < q.capacity := hcap q hqmem
    have hle2 : RatioLE q p := (ratioLE_iff_div q p hqc hpc).mpr hle
    have hstab := pair_sublist_stableSortByRatio q p o.datacenters hle2 hsub
    have hnodup : (stableSortByRatio o.datacenters).Nodup :=
      ((perm_stableSortByRatio o.datacenters).nodup_iff).mpr hn.of_map
    rw [← List.take_append_drop replicas (stableSortByRatio o.datacenters)] at hstab
    rcases List.sublist_append_iff.mp hstab with ⟨u, v, huv, hu, hv⟩
    cases u with
    | nil =>
      rw [List.nil_append] at huv
      rw [← huv] at hv
      have hpd : p ∈ (stableSortByRatio o.datacenters).drop replicas :=
        hv.subset (by simp)
      rw [← List.take_append_drop replicas (stableSortByRatio o.datacenters),
        List.nodup_append] at hnodup
      exact (hnodup.2.2 hp hpd).elim
    | cons e u1 =>
      have he : e = q := by
        have h2 : [q, p] = e :: (u1 ++ v) := by rw [huv]; rfl
        simp only [List.cons.injEq] at h2
        exact h2.1.symm
      show q ∈ (stableSortByRatio o.datacenters).take replicas
      rw [← he]
      exact hu.subset (List.mem_cons_self _ _)

/-- C2 witness: the amended placement behaviour on the two-pool tie
registry. -/
theorem c2_witness :
    (deployService tieRatioReg "api" 1 3).1 =
      (deploySelect tieRatioReg 1).map (fun dc => mkInstanceId "api" dc.id 3) ∧
    (deploySelect tieRatioReg 1).length = min 1 tieRatioReg.datacenters.length := by
  have h := c2_placement_determinism tieRatioReg 1 (by decide) (by decide)
  exact ⟨h.1 "api" 3, h.2.1⟩

/-! ### Routing lemmas (C3) -/

theorem pythonMinBy_cons (lt : DataCenter → DataCenter → Bool) (x d : DataCenter)
    (xs : List DataCenter) :
    pythonMinBy lt x (d :: xs) = pythonMinBy lt (if lt d x then d else x) xs := rfl

theorem pythonMinBy_key_spec {κ : Type} [LinearOrder κ] (key : DataCenter → κ)
    (x : DataCenter) (xs : List DataCenter) :
    (∀ q ∈ x :: xs, key (pythonMinBy (fun a b => decide (key a < key b)) x xs) ≤ key q) ∧
    ∃ l1 l2, x :: xs = l1 ++ (pythonMinBy (fun a b => decide (key a < key b)) x xs) :: l2 ∧
      ∀ q ∈ l1, key (pythonMinBy (fun a b => decide (key a < key b)) x xs) < key q := by
  induction xs generalizing x with
  | nil =>
    refine ⟨?_, [], [], rfl, by simp⟩
    intro q hq
    rcases List.mem_cons.mp hq with h | h
    · rw [h]
      exact le_refl _
    · cases h
  | cons d xs ih =>
    by_cases hdx : key d < key x
    · have hred : pythonMinBy (fun a b => decide (key a < key b)) x (d :: xs) =
          pythonMinBy (fun a b => decide (key a < key b)) d xs := by
        rw [pythonMinBy_cons]
        congr 1
        exact if_pos (by simpa using hdx)
      obtain ⟨hmin, l1, l2, hsplit, hgt⟩ := ih d
      rw [hred]
      refine ⟨?_, ?_⟩
      · intro q hq
        rcases List.mem_cons.mp hq with h | h
        · rw [h]
          exact le_of_lt (lt_of_le_of_lt (hmin d (List.mem_cons_self _ _)) hdx)
        · exact hmin q h
      · cases l1 with
        | nil =>
          simp only [List.nil_append] at hsplit
          injection hsplit with h1 h2
          refine ⟨[x], l2, ?_, ?_⟩
          · rw [List.singleton_append, ← h1, ← h2]
          · intro q hq
            rcases List.mem_cons.mp hq with h | h
            · rw [h, ← h1]
              exact hdx
            · cases h
        | cons e l1t =>
          have hsplit2 : d :: xs = e :: (l1t ++
              pythonMinBy (fun a b => decide (key a < key b)) d xs :: l2) := by
            rw [hsplit]
            rfl
          injection hsplit2 with h1 h2
          have hrd : key (pythonMinBy (fun a b => decide (key a < key b)) d xs) < key d := by
            have := hgt e (List.mem_cons_self _ _)
            rw [← h1] at this
            exact this
          refine ⟨x :: d :: l1t, l2, ?_, ?_⟩
          · rw [List.cons_append, List.cons_append, ← h2]
          · intro q hq
            rcases List.mem_cons.mp hq with h | h
            · rw [h]
              exact lt_trans hrd hdx
            · rcases List.mem_cons.mp h with h | h
              · rw [h]
                exact hrd
              · exact hgt q (List.mem_cons_of_mem _ h)
    · have hred : pythonMinBy (fun a b => decide (key a < key b)) x (d :: xs) =
          pythonMinBy (fun a b => decide (key a < key b)) x xs := by
        rw [pythonMinBy_cons]
        congr 1
        exact if_neg (by simpa using hdx)
      obtain ⟨hmin, l1, l2, hsplit, hgt⟩ := ih x
      rw [hred]
      have hxd : key x ≤ key d := le_of_not_lt hdx
      refine ⟨?_, ?_⟩
      · intro q hq
        rcases List.mem_cons.mp hq with h | h
        · exact hmin q (h ▸ List.mem_cons_self _ _)
        · rcases List.mem_cons.mp h with h | h
          · rw [h]
            exact le_trans (hmin x (List.mem_cons_self _ _)) hxd
          · exact hmin q (List.mem_cons_of_mem _ h)
      · cases l1 with
        | nil =>
          simp only [List.nil_append] at hsplit
          injection hsplit with h1 h2
          refine ⟨[], d :: xs, ?_, by simp⟩
          rw [List.nil_append, ← h1]
        | cons e l1t =>
          have hsplit2 : x :: xs = e :: (l1t ++
              pythonMinBy (fun a b => decide (key a < key b)) x xs :: l2) := by
            rw [hsplit]
            rfl
          injection hsplit2 with h1 h2
          have hrx : key (pythonMinBy (fun a b => decide (key a < key b)) x xs) < key x := by
            have := hgt e (List.mem_cons_self _ _)
            rw [← h1] at this
            exact this
          refine ⟨x :: d :: l1t, l2, ?_, ?_⟩
          · rw [List.cons_append, List.cons_append, ← h2]
          · intro q hq
            rcases List.mem_cons.mp hq with h | h
            · rw [h]
              exact hrx
            · rcases List.mem_cons.mp h with h | h
              · rw [h]
                exact lt_of_lt_of_le hrx hxd
              · exact hgt q (List.mem_cons_of_mem _ h)

theorem routeTraffic_of_nil (o : Orchestrator) (u : String)
    (h : eligibleDCs o = []) : routeTraffic o u = none := by
  unfold routeTraffic
  rw [h]

theorem routeTraffic_of_cons (o : Orchestrator) (u : String) (x : DataCenter)
    (xs : List DataCenter) (h : eligibleDCs o = x :: xs) :
    routeTraffic o u = some
      (pythonMinBy (fun a b => decide (a.latencyTenths < b.latencyTenths)) x xs).id := by
  unfold routeTraffic
  rw [h]

/-- C3 counterexample: two eligible pools with equal latencies, registered
in the order `b-pool`, `a-pool`: `route_traffic` returns `b-pool` (Python
`min` keeps the first minimum, i.e. insertion order), while the spec's
id-ascending tie-break returns `a-pool`. -/
theorem c3_counterexample :
    routeTraffic tieLatencyReg "origin" = some "b-pool" ∧
    routeSpecIdTieBreak tieLatencyReg = some "a-pool" ∧
    ("b-pool" : String) ≠ "a-pool" := by
  refine ⟨by decide, by decide, by decide⟩

/-- C3 (amended): `route_traffic` returns `None` exactly when no pool is
eligible (status Healthy and `current_load < 0.9 * capacity`), and never
raises; a returned pool is always eligible — never unhealthy, never at or
above 90% capacity — and has minimal latency among the eligible pools,
with latency ties broken by the registry's insertion (iteration) order
rather than by pool id: the returned pool is the first eligible pool
attaining the minimal latency. -/
theorem c3_routing_exclusion (o : Orchestrator) (origin : String) :
    (routeTraffic o origin = none ↔ eligibleDCs o = []) ∧
    (∀ pid, routeTraffic o origin = some pid →
      ∃ dc l1 l2, dc.id = pid ∧
        dc.status = RegionStatus.healthy ∧
        10 * dc.currentLoad < 9 * dc.capacity ∧
        eligibleDCs o = l1 ++ dc :: l2 ∧
        (∀ q ∈ eligibleDCs o, dc.latencyTenths ≤ q.latencyTenths) ∧
        (∀ q ∈ l1, dc.latencyTenths < q.latencyTenths)) := by
  cases heli : eligibleDCs o with
  | nil =>
    refine ⟨?_, ?_⟩
    · rw [routeTraffic_of_nil o origin heli]
      simp
    · intro pid hpid
      rw [routeTraffic_of_nil o origin heli] at hpid
      cases hpid
  | cons x xs =>
    refine ⟨?_, ?_⟩
    · rw [routeTraffic_of_cons o origin x xs heli]
      constructor
      · intro h
        cases h
      · intro h
        cases h
    · intro pid hpid
      rw [routeTraffic_of_cons o origin x xs heli] at hpid
      injection hpid with hpid
      obtain ⟨hmin, l1, l2, hsplit, hgt⟩ :=
        pythonMinBy_key_spec (fun d => d.latencyTenths) x xs
      refine ⟨pythonMinBy (fun a b => decide (a.latencyTenths < b.latencyTenths)) x xs,
        l1, l2, hpid, ?_, ?_, ?_, ?_, ?_⟩
      · have hmem : pythonMinBy (fun a b => decide (a.latencyTenths < b.latencyTenths)) x xs
            ∈ eligibleDCs o := by
          rw [heli, hsplit]
          exact List.mem_append.mpr (Or.inr (List.mem_cons_self _ _))
        have := List.of_mem_filter hmem
        have helig : Eligible
            (pythonMinBy (fun a b => decide (a.latencyTenths < b.latencyTenths)) x xs) := by
          simpa using this
        exact helig.1
      · have hmem : pythonMinBy (fun a b => decide (a.latencyTenths < b.latencyTenths)) x xs
            ∈ eligibleDCs o := by
          rw [heli, hsplit]
          exact List.mem_append.mpr (Or.inr (List.mem_cons_self _ _))
        have := List.of_mem_filter hmem
        have helig : Eligible
            (pythonMinBy (fun a b => decide (a.latencyTenths < b.latencyTenths)) x xs) := by
          simpa using this
        exact helig.2
      · exact hsplit
      · intro q hq
        exact hmin q hq
      · exact hgt

/-- C3 witness: on the equal-latency registry the router returns the
first-registered eligible pool, with the amended properties. -/
theorem c3_witness :
    routeTraffic tieLatencyReg "x" = some "b-pool" ∧
    (∃ dc l1 l2, dc.id = "b-pool" ∧
      dc.status = RegionStatus.healthy ∧
      10 * dc.currentLoad < 9 * dc.capacity ∧
      eligibleDCs tieLatencyReg = l1 ++ dc :: l2 ∧
      (∀ q ∈ eligibleDCs tieLatencyReg, dc.latencyTenths ≤ q.latencyTenths) ∧
      (∀ q ∈ l1, dc.latencyTenths < q.latencyTenths)) := by
  refine ⟨by decide, ?_⟩
  exact (c3_routing_exclusion tieLatencyReg "x").2 "b-pool" (by decide)

/-! ### Overload migration (C6, C7 amended) -/

theorem find?_of_mem_nodup (ds : List DataCenter) (q : DataCenter)
    (hn : (ds.map DataCenter.id).Nodup) (hq : q ∈ ds) :
    ds.find? (fun d => d.id = q.id) = some q := by
  induction ds with
  | nil => cases hq
  | cons d ds ih =>
    rw [List.map_cons, List.nodup_cons] at hn
    by_cases hd : d.id = q.id
    · have hdq : d = q := by
        rcases List.mem_cons.mp hq with h | h
        · exact h.symm
        · exact absurd (hd ▸ List.mem_map_of_mem DataCenter.id h) hn.1
      rw [List.find?_cons_of_pos _ (by simpa using hd), hdq]
    · have hqds : q ∈ ds := by
        rcases List.mem_cons.mp hq with h | h
        · exact absurd (by rw [h]) hd
        · exact h
      rw [List.find?_cons_of_neg _ (by simpa using hd)]
      exact ih hn.2 hqds

theorem find?_bumpLoad_eq (ds : List DataCenter) (i : String) (m : Int) :
    (bumpLoad ds i m).find? (fun d => d.id = i) =
      (ds.find? (fun d => d.id = i)).map
        (fun d => { d with currentLoad := d.currentLoad + m }) := by
  rw [bumpLoad]
  exact find?_setFirstDC_eq _ _ _ (fun d => rfl)

theorem filter_ne_of_split (pre post : List DataCenter) (dc : DataCenter)
    (hn : (((pre ++ dc :: post)).map DataCenter.id).Nodup) :
    (pre ++ dc :: post).filter (fun d => ¬ d.id = dc.id) = pre ++ post := by
  rw [List.map_append, List.map_cons, List.nodup_append] at hn
  have hpre : ∀ q ∈ pre, ¬ q.id = dc.id := by
    intro q hq hc
    exact hn.2.2 (List.mem_map_of_mem DataCenter.id hq)
      (by rw [hc]; exact List.mem_cons_self _ _)
  have hpost : ∀ q ∈ post, ¬ q.id = dc.id := by
    intro q hq hc
    rw [List.nodup_cons] at hn
    exact hn.2.1.1 (hc ▸ List.mem_map_of_mem DataCenter.id hq)
  rw [List.filter_append, List.filter_cons_of_neg (by simp),
    List.filter_eq_self.mpr (fun a ha => by simpa using hpre a ha),
    List.filter_eq_self.mpr (fun a ha => by simpa using hpost a ha)]

theorem monitorStepDC_noop (s : System) (i : String) (dc : DataCenter)
    (hfind : findDC s.orch i = some dc) (hnov : ¬ Overloaded dc)
    (hst : dc.status = RegionStatus.healthy) :
    monitorStepDC s i = Except.ok s := by
  rw [monitorStepDC_of_some s i dc hfind, if_neg hnov, except_map_ok,
    statusStep_of_some s i dc hfind, if_neg (fun hc => hc hst)]

theorem dcPhase_append (s : System) (l1 l2 : List String) :
    dcPhase s (l1 ++ l2) = (dcPhase s l1 >>= fun s1 => dcPhase s1 l2) := by
  unfold dcPhase
  rw [List.foldlM_append]

theorem dcPhase_noop_prefix (s : System) (ids : List String)
    (h : ∀ i ∈ ids, monitorStepDC s i = Except.ok s) :
    dcPhase s ids = Except.ok s := by
  induction ids with
  | nil => rfl
  | cons i ids ih =>
    rw [dcPhase_cons, h i (List.mem_cons_self _ _), except_bind_ok]
    exact ih (fun j hj => h j (List.mem_cons_of_mem _ hj))

theorem pythonMinBy_congr (lt1 lt2 : DataCenter → DataCenter → Bool)
    (S : List DataCenter) (x : DataCenter) (xs : List DataCenter)
    (hx : x ∈ S) (hxs : ∀ y ∈ xs, y ∈ S)
    (hagree : ∀ a ∈ S, ∀ b ∈ S, lt1 a b = lt2 a b) :
    pythonMinBy lt1 x xs = pythonMinBy lt2 x xs := by
  induction xs generalizing x with
  | nil => rfl
  | cons d xs ih =>
    have hd : d ∈ S := hxs d (List.mem_cons_self _ _)
    rw [pythonMinBy_cons, pythonMinBy_cons, hagree d hd x hx]
    by_cases h : lt2 d x = true
    · rw [if_pos h]
      exact ih d hd (fun y hy => hxs y (List.mem_cons_of_mem _ hy))
    · rw [if_neg h]
      exact ih x hx (fun y hy => hxs y (List.mem_cons_of_mem _ hy))

/-- C6 counterexample: with pools A (100 of 100) and B (98 of 100) both
overloaded at the start of the cycle, the claim's per-pool amounts are
`int(100*0.2) = 20` for A and `int(98*0.2) = 19` for B, each necessarily
sent to the only other pool, which would leave B at `98 + 20 - 19 = 99`.
The code instead computes B's migration from B's load at processing time
(118, after A's 20 units landed on it), moving 23 and leaving B at 95. -/
theorem c6_counterexample :
    Overloaded (mkDC "A" 100 100 .healthy 10) ∧
    Overloaded (mkDC "B" 100 98 .healthy 20) ∧
    migrationAmount (mkDC "A" 100 100 .healthy 10) = 20 ∧
    migrationAmount (mkDC "B" 100 98 .healthy 20) = 19 ∧
    (monitorAndHeal { orch := c6cxReg, healingActions := 0 }).map
      (fun s2 => (loadOf s2.orch "A", loadOf s2.orch "B", s2.healingActions)) =
      Except.ok (some 103, some 95, 2) ∧
    ¬ (monitorAndHeal { orch := c6cxReg, healingActions := 0 }).map
      (fun s2 => loadOf s2.orch "B") =
      Except.ok (some ((mkDC "B" 100 98 .healthy 20).currentLoad +
        migrationAmount (mkDC "A" 100 100 .healthy 10) -
        migrationAmount (mkDC "B" 100 98 .healthy 20))) := by
  decide

/-- C6 (amended): when the monitor's datacenter sweep reaches a pool that
is overloaded at that moment — `s` being the state the sweep has built so
far, which earlier migrations of the same cycle may already have
changed — the healing controller picks a pool of minimal load ratio among
all other pools of that state as target, moves exactly
`int(current_load * 0.2)` = `migrationAmount` of the pool's load in that
state from source to target, touches no other pool's load, increments the
healing counter; and for any cycle start whose processing of the earlier
pools yields `s`, the cycle's datacenter phase continues with exactly
this step followed by the processing of the later pools. -/
theorem c6_overload_migration (s : System) (pre post : List DataCenter) (dc : DataCenter)
    (hcap : CapsPos s.orch) (hn : (s.orch.datacenters.map DataCenter.id).Nodup)
    (hsplit : s.orch.datacenters = pre ++ dc :: post)
    (hov : Overloaded dc)
    (hothers : ¬ pre ++ post = []) :
    ∃ t s2,
      t ∈ pre ++ post ∧
      (∀ q ∈ pre ++ post, loadRatio t ≤ loadRatio q) ∧
      healOverload s dc.id = Except.ok s2 ∧
      loadOf s2.orch dc.id = some (dc.currentLoad - migrationAmount dc) ∧
      loadOf s2.orch t.id = some (t.currentLoad + migrationAmount dc) ∧
      (∀ k, ¬ k = dc.id → ¬ k = t.id → loadOf s2.orch k = loadOf s.orch k) ∧
      s2.healingActions = s.healingActions + 1 ∧
      monitorStepDC s dc.id =
        (healOverload s dc.id).map (fun s3 => statusStep s3 dc.id) ∧
      ∀ s0, dcPhase s0 (pre.map (fun d => d.id)) = Except.ok s →
        dcPhase s0 ((pre ++ dc :: post).map (fun d => d.id)) =
          (monitorStepDC s dc.id >>= fun s3 => dcPhase s3 (post.map (fun d => d.id))) := by
  have hdcmem : dc ∈ s.orch.datacenters := by
    rw [hsplit]
    exact List.mem_append.mpr (Or.inr (List.mem_cons_self _ _))
  have hfind : findDC s.orch dc.id = some dc := find?_of_mem_nodup _ dc hn hdcmem
  have hfil : s.orch.datacenters.filter (fun d => ¬ d.id = dc.id) = pre ++ post := by
    rw [hsplit]
    exact filter_ne_of_split pre post dc (by rw [← hsplit]; exact hn)
  obtain ⟨t0, ts, hts⟩ := List.exists_cons_of_ne_nil hothers
  have hfil2 : s.orch.datacenters.filter (fun d => ¬ d.id = dc.id) = t0 :: ts := by
    rw [hfil, hts]
  have hok := healOverload_of_filter_cons s dc.id dc t0 ts hfind hfil2
  set tgt := pythonMinBy (fun a b => decide (RatioLT a b)) t0 ts with htgt
  have htmem : tgt ∈ pre ++ post := by
    rw [hts]
    exact pythonMinBy_mem _ t0 ts
  have htmem2 : tgt ∈ s.orch.datacenters := by
    rw [← hfil] at htmem
    exact List.mem_of_mem_filter htmem
  have htne : ¬ tgt.id = dc.id := by
    rw [← hfil] at htmem
    simpa using List.of_mem_filter htmem
  -- the comparator agrees with the rational-ratio comparator on the fleet
  have hcongr : tgt = pythonMinBy
      (fun a b => decide (loadRatio a < loadRatio b)) t0 ts := by
    rw [htgt]
    apply pythonMinBy_congr _ _ s.orch.datacenters
    · have : t0 ∈ s.orch.datacenters.filter (fun d => ¬ d.id = dc.id) := by
        rw [hfil2]
        exact List.mem_cons_self _ _
      exact List.mem_of_mem_filter this
    · intro y hy
      have : y ∈ s.orch.datacenters.filter (fun d => ¬ d.id = dc.id) := by
        rw [hfil2]
        exact List.mem_cons_of_mem _ hy
      exact List.mem_of_mem_filter this
    · intro a ha b hb
      exact decide_eq_decide.mpr (ratioLT_iff_div a b (hcap a ha) (hcap b hb))
  obtain ⟨hmin, _, _, _, _⟩ :=
    pythonMinBy_key_spec (fun d => loadRatio d) t0 ts
  refine ⟨tgt, _, htmem, ?_, hok, ?_, ?_, ?_, rfl, ?_, ?_⟩
  · intro q hq
    rw [hcongr]
    apply hmin
    rw [← hts]
    exact hq
  · show ((bumpLoad (bumpLoad s.orch.datacenters dc.id (-(migrationAmount dc)))
        tgt.id (migrationAmount dc)).find? (fun d => d.id = dc.id)).map
        (fun d => d.currentLoad) = some (dc.currentLoad - migrationAmount dc)
    rw [find?_bumpLoad_ne _ _ _ _ (fun hc => htne hc.symm), find?_bumpLoad_eq]
    unfold findDC at hfind
    rw [hfind]
    simp [Int.sub_eq_add_neg]
  · show ((bumpLoad (bumpLoad s.orch.datacenters dc.id (-(migrationAmount dc)))
        tgt.id (migrationAmount dc)).find? (fun d => d.id = tgt.id)).map
        (fun d => d.currentLoad) = some (tgt.currentLoad + migrationAmount dc)
    rw [find?_bumpLoad_eq, find?_bumpLoad_ne _ _ _ _ htne,
      find?_of_mem_nodup _ tgt hn htmem2]
    rfl
  · intro k hk1 hk2
    show ((bumpLoad (bumpLoad s.orch.datacenters dc.id (-(migrationAmount dc)))
        tgt.id (migrationAmount dc)).find? (fun d => d.id = k)).map
        (fun d => d.currentLoad) = loadOf s.orch k
    rw [find?_bumpLoad_ne _ _ _ _ hk2, find?_bumpLoad_ne _ _ _ _ hk1]
    rfl
  · rw [monitorStepDC_of_some s dc.id dc hfind, if_pos hov]
  · intro s0 h0
    rw [List.map_append, List.map_cons, dcPhase_append, h0]
    show dcPhase s (dc.id :: post.map (fun d => d.id)) = _
    rw [dcPhase_cons]

/-- C6 witness: two applications of the migration theorem.  First the spec
scenario (pool A at 96 of 100, Healthy, idle pool B), where A is the first
pool of the sweep (`pre = []`): 19 units move, leaving A at 77 and B
at 19.  Second the mid-cycle state of the `c6cxReg` run at which the sweep
reaches pool B, with the already-healed A as `pre`: 23 units move off B's
processing-time load 118. -/
theorem c6_witness :
    (∃ t s2,
      t ∈ [] ++ [mkDC "B" 100 0 .healthy 20] ∧
      (∀ q ∈ [] ++ [mkDC "B" 100 0 .healthy 20], loadRatio t ≤ loadRatio q) ∧
      healOverload { orch := scenarioAB, healingActions := 0 }
        (mkDC "A" 100 96 .healthy 10).id = Except.ok s2 ∧
      loadOf s2.orch (mkDC "A" 100 96 .healthy 10).id =
        some ((mkDC "A" 100 96 .healthy 10).currentLoad -
          migrationAmount (mkDC "A" 100 96 .healthy 10)) ∧
      loadOf s2.orch t.id = some (t.currentLoad +
        migrationAmount (mkDC "A" 100 96 .healthy 10)) ∧
      (∀ k, ¬ k = (mkDC "A" 100 96 .healthy 10).id → ¬ k = t.id →
        loadOf s2.orch k = loadOf scenarioAB k) ∧
      s2.healingActions = 0 + 1 ∧
      monitorStepDC { orch := scenarioAB, healingActions := 0 }
          (mkDC "A" 100 96 .healthy 10).id =
        (healOverload { orch := scenarioAB, healingActions := 0 }
            (mkDC "A" 100 96 .healthy 10).id).map
          (fun s3 => statusStep s3 (mkDC "A" 100 96 .healthy 10).id) ∧
      ∀ s0, dcPhase s0 (([] : List DataCenter).map (fun d => d.id)) =
          Except.ok { orch := scenarioAB, healingActions := 0 } →
        dcPhase s0 ((([] : List DataCenter) ++ mkDC "A" 100 96 .healthy 10 ::
            [mkDC "B" 100 0 .healthy 20]).map (fun d => d.id)) =
          (monitorStepDC { orch := scenarioAB, healingActions := 0 }
              (mkDC "A" 100 96 .healthy 10).id >>=
            fun s3 => dcPhase s3 ([mkDC "B" 100 0 .healthy 20].map (fun d => d.id)))) ∧
    (∃ t s2,
      t ∈ [mkDC "A" 100 80 .healthy 10] ++ [] ∧
      (∀ q ∈ [mkDC "A" 100 80 .healthy 10] ++ [], loadRatio t ≤ loadRatio q) ∧
      healOverload { orch := c6cxMid, healingActions := 1 }
        (mkDC "B" 100 118 .healthy 20).id = Except.ok s2 ∧
      loadOf s2.orch (mkDC "B" 100 118 .healthy 20).id =
        some ((mkDC "B" 100 118 .healthy 20).currentLoad -
          migrationAmount (mkDC "B" 100 118 .healthy 20)) ∧
      loadOf s2.orch t.id = some (t.currentLoad +
        migrationAmount (mkDC "B" 100 118 .healthy 20)) ∧
      (∀ k, ¬ k = (mkDC "B" 100 118 .healthy 20).id → ¬ k = t.id →
        loadOf s2.orch k = loadOf c6cxMid k) ∧
      s2.healingActions = 1 + 1 ∧
      monitorStepDC { orch := c6cxMid, healingActions := 1 }
          (mkDC "B" 100 118 .healthy 20).id =
        (healOverload { orch := c6cxMid, healingActions := 1 }
            (mkDC "B" 100 118 .healthy 20).id).map
          (fun s3 => statusStep s3 (mkDC "B" 100 118 .healthy 20).id) ∧
      ∀ s0, dcPhase s0 ([mkDC "A" 100 80 .healthy 10].map (fun d => d.id)) =
          Except.ok { orch := c6cxMid, healingActions := 1 } →
        dcPhase s0 (([mkDC "A" 100 80 .healthy 10] ++
            mkDC "B" 100 118 .healthy 20 :: []).map (fun d => d.id)) =
          (monitorStepDC { orch := c6cxMid, healingActions := 1 }
              (mkDC "B" 100 118 .healthy 20).id >>=
            fun s3 => dcPhase s3 (([] : List DataCenter).map (fun d => d.id)))) ∧
    (healOverload { orch := scenarioAB, healingActions := 0 } "A").map
      (fun s2 => (loadOf s2.orch "A", loadOf s2.orch "B")) =
        Except.ok (some 77, some 19) := by
  refine ⟨?_, ?_, ?_⟩
  · exact c6_overload_migration { orch := scenarioAB, healingActions := 0 }
      [] [mkDC "B" 100 0 .healthy 20] (mkDC "A" 100 96 .healthy 10)
      (by decide) (by decide) rfl (by decide) (by decide)
  · exact c6_overload_migration { orch := c6cxMid, healingActions := 1 }
      [mkDC "A" 100 80 .healthy 10] [] (mkDC "B" 100 118 .healthy 20)
      (by decide) (by decide) rfl (by decide) (by decide)
  · decide

/-- C7 (amended): when the healing controller processes an overloaded pool
it removes exactly `int(current_load * 0.2)` from it; this brings the pool
back to at or below capacity only when its load is at most 1.25x capacity
(`4*load ≤ 5*capacity`).  No one-cycle recovery bound holds in general —
see the counterexample, where a reachable pool at twice its capacity is
still above capacity after a full monitor cycle. -/
theorem c7_overload_step_bound (s : System) (dc : DataCenter)
    (hfind : findDC s.orch dc.id = some dc)
    (hothers : ¬ s.orch.datacenters.filter (fun d => ¬ d.id = dc.id) = [])
    (h0 : 0 ≤ dc.currentLoad) (hb : 4 * dc.currentLoad ≤ 5 * dc.capacity) :
    (healOverload s dc.id).map (fun s2 => loadOf s2.orch dc.id) =
      Except.ok (some (dc.currentLoad - migrationAmount dc)) ∧
    dc.currentLoad - migrationAmount dc ≤ dc.capacity := by
  constructor
  · obtain ⟨t0, ts, hts⟩ := List.exists_cons_of_ne_nil hothers
    have hok := healOverload_of_filter_cons s dc.id dc t0 ts hfind hts
    rw [hok, except_map_ok]
    have htne : ¬ (pythonMinBy (fun a b => decide (RatioLT a b)) t0 ts).id = dc.id := by
      have htmem : pythonMinBy (fun a b => decide (RatioLT a b)) t0 ts ∈ t0 :: ts :=
        pythonMinBy_mem _ t0 ts
      rw [← hts] at htmem
      simpa using List.of_mem_filter htmem
    congr 1
    show ((bumpLoad (bumpLoad s.orch.datacenters dc.id (-(migrationAmount dc)))
        (pythonMinBy (fun a b => decide (RatioLT a b)) t0 ts).id
        (migrationAmount dc)).find? (fun d => d.id = dc.id)).map
        (fun d => d.currentLoad) = some (dc.currentLoad - migrationAmount dc)
    rw [find?_bumpLoad_ne _ _ _ _ (fun hc => htne hc.symm), find?_bumpLoad_eq]
    unfold findDC at hfind
    rw [hfind]
    simp [Int.sub_eq_add_neg]
  · unfold migrationAmount
    rw [Int.tdiv_eq_ediv h0 (by norm_num)]
    omega

/-- C7 amended-theorem witness: a pool at 120 of 100 (20% over capacity)
drops to 96 ≤ 100 after its healing step. -/
theorem c7_witness :
    (healOverload { orch := c7StepReg, healingActions := 0 }
        (mkDC "X" 100 120 .healthy 10).id).map
      (fun s2 => loadOf s2.orch (mkDC "X" 100 120 .healthy 10).id) =
      Except.ok (some ((mkDC "X" 100 120 .healthy 10).currentLoad -
        migrationAmount (mkDC "X" 100 120 .healthy 10))) ∧
    (mkDC "X" 100 120 .healthy 10).currentLoad -
        migrationAmount (mkDC "X" 100 120 .healthy 10) ≤
      (mkDC "X" 100 120 .healthy 10).capacity :=
  c7_overload_step_bound { orch := c7StepReg, healingActions := 0 }
    (mkDC "X" 100 120 .healthy 10) (by decide) (by decide) (by decide) (by decide)

/-! ### Healing convergence (C4) -/

theorem map_id_bumpLoad (ds : List DataCenter) (i : String) (m : Int) :
    (bumpLoad ds i m).map DataCenter.id = ds.map DataCenter.id := by
  rw [bumpLoad]
  exact map_id_setFirstDC _ _ _ (fun d => rfl)

theorem dcids_healOverload (s s2 : System) (i : String)
    (hok : healOverload s i = Except.ok s2) :
    s2.orch.datacenters.map DataCenter.id = s.orch.datacenters.map DataCenter.id := by
  cases hfind : findDC s.orch i with
  | none =>
    rw [healOverload_of_find_none s i hfind] at hok
    cases hok
    rfl
  | some dc =>
    cases hfil : s.orch.datacenters.filter (fun d => ¬ d.id = i) with
    | nil =>
      rw [healOverload_of_filter_nil s i dc hfind hfil] at hok
      cases hok
    | cons t ts =>
      rw [healOverload_of_filter_cons s i dc t ts hfind hfil] at hok
      cases hok
      show (bumpLoad (bumpLoad _ _ _) _ _).map DataCenter.id = _
      rw [map_id_bumpLoad, map_id_bumpLoad]

theorem dcids_healDatacenter (s : System) (i : String) :
    (healDatacenter s i).orch.datacenters.map DataCenter.id =
      s.orch.datacenters.map DataCenter.id := by
  show (setFirstDC _ _ _).map DataCenter.id = _
  exact map_id_setFirstDC _ _ _ (fun d => rfl)

theorem dcids_statusStep (s : System) (i : String) :
    (statusStep s i).orch.datacenters.map DataCenter.id =
      s.orch.datacenters.map DataCenter.id := by
  cases hfind : findDC s.orch i with
  | none => rw [statusStep_of_none s i hfind]
  | some dc2 =>
    rw [statusStep_of_some s i dc2 hfind]
    by_cases hst : ¬ dc2.status = RegionStatus.healthy
    · rw [if_pos hst]
      exact dcids_healDatacenter s i
    · rw [if_neg hst]

theorem dcids_monitorStepDC (s s2 : System) (i : String)
    (hok : monitorStepDC s i = Except.ok s2) :
    s2.orch.datacenters.map DataCenter.id = s.orch.datacenters.map DataCenter.id := by
  cases hfind : findDC s.orch i with
  | none =>
    rw [monitorStepDC_of_none s i hfind] at hok
    cases hok
    rfl
  | some dc =>
    rw [monitorStepDC_of_some s i dc hfind] at hok
    by_cases hov : Overloaded dc
    · rw [if_pos hov] at hok
      cases hheal : healOverload s i with
      | error e =>
        rw [hheal, except_map_error] at hok
        cases hok
      | ok s1 =>
        rw [hheal, except_map_ok] at hok
        cases hok
        rw [dcids_statusStep, dcids_healOverload s s1 i hheal]
    · rw [if_neg hov, except_map_ok] at hok
      cases hok
      rw [dcids_statusStep]

theorem dcids_dcPhase (ids : List String) (s s1 : System)
    (hok : dcPhase s ids = Except.ok s1) :
    s1.orch.datacenters.map DataCenter.id = s.orch.datacenters.map DataCenter.id := by
  induction ids generalizing s with
  | nil =>
    rw [dcPhase_nil] at hok
    cases hok
    rfl
  | cons i ids ih =>
    have hex : ∃ sa, monitorStepDC s i = Except.ok sa ∧ dcPhase sa ids = Except.ok s1 := by
      rw [dcPhase_cons] at hok
      cases hstep : monitorStepDC s i with
      | error e =>
        rw [hstep, except_bind_error] at hok
        cases hok
      | ok sa =>
        rw [hstep, except_bind_ok] at hok
        exact ⟨sa, rfl, hok⟩
    obtain ⟨sa, hstep, hrest⟩ := hex
    rw [ih sa hrest, dcids_monitorStepDC s sa i hstep]

theorem services_healOverload (s s2 : System) (i : String)
    (hok : healOverload s i = Except.ok s2) :
    s2.orch.services = s.orch.services := by
  cases hfind : findDC s.orch i with
  | none =>
    rw [healOverload_of_find_none s i hfind] at hok
    cases hok
    rfl
  | some dc =>
    cases hfil : s.orch.datacenters.filter (fun d => ¬ d.id = i) with
    | nil =>
      rw [healOverload_of_filter_nil s i dc hfind hfil] at hok
      cases hok
    | cons t ts =>
      rw [healOverload_of_filter_cons s i dc t ts hfind hfil] at hok
      cases hok
      rfl

theorem services_statusStep (s : System) (i : String) :
    (statusStep s i).orch.services = s.orch.services := by
  cases hfind : findDC s.orch i with
  | none => rw [statusStep_of_none s i hfind]
  | some dc2 =>
    rw [statusStep_of_some s i dc2 hfind]
    by_cases hst : ¬ dc2.status = RegionStatus.healthy
    · rw [if_pos hst]
      rfl
    · rw [if_neg hst]

theorem services_monitorStepDC (s s2 : System) (i : String)
    (hok : monitorStepDC s i = Except.ok s2) :
    s2.orch.services = s.orch.services := by
  cases hfind : findDC s.orch i with
  | none =>
    rw [monitorStepDC_of_none s i hfind] at hok
    cases hok
    rfl
  | some dc =>
    rw [monitorStepDC_of_some s i dc hfind] at hok
    by_cases hov : Overloaded dc
    · rw [if_pos hov] at hok
      cases hheal : healOverload s i with
      | error e =>
        rw [hheal, except_map_error] at hok
        cases hok
      | ok s1 =>
        rw [hheal, except_map_ok] at hok
        cases hok
        rw [services_statusStep, services_healOverload s s1 i hheal]
    · rw [if_neg hov, except_map_ok] at hok
      cases hok
      rw [services_statusStep]

theorem services_dcPhase (ids : List String) (s s1 : System)
    (hok : dcPhase s ids = Except.ok s1) :
    s1.orch.services = s.orch.services := by
  induction ids generalizing s with
  | nil =>
    rw [dcPhase_nil] at hok
    cases hok
    rfl
  | cons i ids ih =>
    have hex : ∃ sa, monitorStepDC s i = Except.ok sa ∧ dcPhase sa ids = Except.ok s1 := by
      rw [dcPhase_cons] at hok
      cases hstep : monitorStepDC s i with
      | error e =>
        rw [hstep, except_bind_error] at hok
        cases hok
      | ok sa =>
        rw [hstep, except_bind_ok] at hok
        exact ⟨sa, rfl, hok⟩
    obtain ⟨sa, hstep, hrest⟩ := hex
    rw [ih sa hrest, services_monitorStepDC s sa i hstep]

theorem find?_map_bumpLoad {β : Type} (ds : List DataCenter) (i k : String) (m : Int)
    (f : DataCenter → β)
    (hf : ∀ d, f { d with currentLoad := d.currentLoad + m } = f d) :
    ((bumpLoad ds i m).find? (fun d => d.id = k)).map f =
      (ds.find? (fun d => d.id = k)).map f := by
  by_cases hk : k = i
  · rw [hk, find?_bumpLoad_eq]
    cases hfd : ds.find? (fun d => d.id = i) with
    | none => rfl
    | some d => exact congrArg some (hf d)
  · rw [find?_bumpLoad_ne _ _ _ _ hk]

theorem pair_healOverload (s s2 : System) (i : String)
    (hok : healOverload s i = Except.ok s2) (k : String) :
    (findDC s2.orch k).map (fun d => (d.status, d.uptimeTenths)) =
      (findDC s.orch k).map (fun d => (d.status, d.uptimeTenths)) := by
  cases hfind : findDC s.orch i with
  | none =>
    rw [healOverload_of_find_none s i hfind] at hok
    cases hok
    rfl
  | some dc =>
    cases hfil : s.orch.datacenters.filter (fun d => ¬ d.id = i) with
    | nil =>
      rw [healOverload_of_filter_nil s i dc hfind hfil] at hok
      cases hok
    | cons t ts =>
      rw [healOverload_of_filter_cons s i dc t ts hfind hfil] at hok
      cases hok
      show ((bumpLoad (bumpLoad _ _ _) _ _).find? (fun d => d.id = k)).map
          (fun d => (d.status, d.uptimeTenths)) =
        (s.orch.datacenters.find? (fun d => d.id = k)).map
          (fun d => (d.status, d.uptimeTenths))
      rw [find?_map_bumpLoad _ _ k _ (fun d => (d.status, d.uptimeTenths)) (fun d => rfl),
        find?_map_bumpLoad _ _ k _ (fun d => (d.status, d.uptimeTenths)) (fun d => rfl)]

theorem findDC_healDatacenter_ne (s : System) (i k : String) (hk : k ≠ i) :
    findDC (healDatacenter s i).orch k = findDC s.orch k := by
  show (setFirstDC s.orch.datacenters i
      (fun d => { d with status := RegionStatus.healthy,
                         uptimeTenths := recoveryUptimeTenths })).find? (fun d => d.id = k) =
    s.orch.datacenters.find? (fun d => d.id = k)
  exact find?_setFirstDC_ne _ _ _ _ (fun d => rfl) hk

theorem findDC_healDatacenter_eq (s : System) (i : String) :
    findDC (healDatacenter s i).orch i =
      (findDC s.orch i).map
        (fun d => { d with status := RegionStatus.healthy,
                           uptimeTenths := recoveryUptimeTenths }) := by
  show (setFirstDC s.orch.datacenters i
      (fun d => { d with status := RegionStatus.healthy,
                         uptimeTenths := recoveryUptimeTenths })).find? (fun d => d.id = i) = _
  exact find?_setFirstDC_eq _ _ _ (fun d => rfl)

theorem findDC_statusStep_ne (s : System) (i k : String) (hk : k ≠ i) :
    findDC (statusStep s i).orch k = findDC s.orch k := by
  cases hfind : findDC s.orch i with
  | none => rw [statusStep_of_none s i hfind]
  | some dc2 =>
    rw [statusStep_of_some s i dc2 hfind]
    by_cases hst : ¬ dc2.status = RegionStatus.healthy
    · rw [if_pos hst]
      exact findDC_healDatacenter_ne s i k hk
    · rw [if_neg hst]

theorem pair_monitorStepDC_ne (s s2 : System) (i k : String)
    (hok : monitorStepDC s i = Except.ok s2) (hk : k ≠ i) :
    (findDC s2.orch k).map (fun d => (d.status, d.uptimeTenths)) =
      (findDC s.orch k).map (fun d => (d.status, d.uptimeTenths)) := by
  cases hfind : findDC s.orch i with
  | none =>
    rw [monitorStepDC_of_none s i hfind] at hok
    cases hok
    rfl
  | some dc =>
    rw [monitorStepDC_of_some s i dc hfind] at hok
    by_cases hov : Overloaded dc
    · rw [if_pos hov] at hok
      cases hheal : healOverload s i with
      | error e =>
        rw [hheal, except_map_error] at hok
        cases hok
      | ok s1 =>
        rw [hheal, except_map_ok] at hok
        cases hok
        rw [findDC_statusStep_ne s1 i k hk, pair_healOverload s s1 i hheal k]
    · rw [if_neg hov, except_map_ok] at hok
      cases hok
      rw [findDC_statusStep_ne s i k hk]

theorem pair_dcPhase_not_mem (ids : List String) (s s1 : System) (k : String)
    (hok : dcPhase s ids = Except.ok s1) (hk : ¬ k ∈ ids) :
    (findDC s1.orch k).map (fun d => (d.status, d.uptimeTenths)) =
      (findDC s.orch k).map (fun d => (d.status, d.uptimeTenths)) := by
  induction ids generalizing s with
  | nil =>
    rw [dcPhase_nil] at hok
    cases hok
    rfl
  | cons i ids ih =>
    have hex : ∃ sa, monitorStepDC s i = Except.ok sa ∧ dcPhase sa ids = Except.ok s1 := by
      rw [dcPhase_cons] at hok
      cases hstep : monitorStepDC s i with
      | error e =>
        rw [hstep, except_bind_error] at hok
        cases hok
      | ok sa =>
        rw [hstep, except_bind_ok] at hok
        exact ⟨sa, rfl, hok⟩
    obtain ⟨sa, hstep, hrest⟩ := hex
    have hki : k ≠ i := by
      intro hc
      exact hk (by rw [hc]; exact List.mem_cons_self _ _)
    rw [ih sa hrest (fun hc => hk (List.mem_cons_of_mem _ hc)),
      pair_monitorStepDC_ne s sa i k hstep hki]

theorem pair_monitorStepDC_self (s s2 : System) (i : String) (dcj : DataCenter)
    (hok : monitorStepDC s i = Except.ok s2) (hfind : findDC s.orch i = some dcj) :
    ∃ pr, (findDC s2.orch i).map (fun d => (d.status, d.uptimeTenths)) = some pr ∧
      pr.1 = RegionStatus.healthy ∧
      (¬ dcj.status = RegionStatus.healthy → pr.2 = recoveryUptimeTenths) := by
  rw [monitorStepDC_of_some s i dcj hfind] at hok
  have key : ∃ s1, s2 = statusStep s1 i ∧
      (findDC s1.orch i).map (fun d => (d.status, d.uptimeTenths)) =
        (findDC s.orch i).map (fun d => (d.status, d.uptimeTenths)) := by
    by_cases hov : Overloaded dcj
    · rw [if_pos hov] at hok
      cases hheal : healOverload s i with
      | error e =>
        rw [hheal, except_map_error] at hok
        cases hok
      | ok s1 =>
        rw [hheal, except_map_ok] at hok
        cases hok
        exact ⟨s1, rfl, pair_healOverload s s1 i hheal i⟩
    · rw [if_neg hov, except_map_ok] at hok
      cases hok
      exact ⟨s, rfl, rfl⟩
  obtain ⟨s1, hs2, hpair⟩ := key
  rw [hfind] at hpair
  cases hfd : findDC s1.orch i with
  | none =>
    rw [hfd] at hpair
    simp at hpair
  | some dc1 =>
    rw [hfd] at hpair
    simp at hpair
    rw [hs2, statusStep_of_some s1 i dc1 hfd]
    by_cases hst : ¬ dc1.status = RegionStatus.healthy
    · rw [if_pos hst]
      refine ⟨(RegionStatus.healthy, recoveryUptimeTenths), ?_, rfl, fun _ => rfl⟩
      rw [findDC_healDatacenter_eq s1 i, hfd]
      rfl
    · rw [if_neg hst]
      refine ⟨(dc1.status, dc1.uptimeTenths), ?_, not_not.mp hst, ?_⟩
      · rw [hfd]
        rfl
      · intro hne
        exact absurd (hpair.1.symm.trans (not_not.mp hst)) hne

theorem find?Svc_of_mem_nodup (svcs : List ServiceInstance) (q : ServiceInstance)
    (hn : (svcs.map ServiceInstance.id).Nodup) (hq : q ∈ svcs) :
    svcs.find? (fun x => x.id = q.id) = some q := by
  induction svcs with
  | nil => cases hq
  | cons d ds ih =>
    rw [List.map_cons, List.nodup_cons] at hn
    by_cases hd : d.id = q.id
    · have hdq : d = q := by
        rcases List.mem_cons.mp hq with h | h
        · exact h.symm
        · exact absurd (hd ▸ List.mem_map_of_mem ServiceInstance.id h) hn.1
      rw [List.find?_cons_of_pos _ (by simpa using hd), hdq]
    · have hqds : q ∈ ds := by
        rcases List.mem_cons.mp hq with h | h
        · exact absurd (by rw [h]) hd
        · exact h
      rw [List.find?_cons_of_neg _ (by simpa using hd)]
      exact ih hn.2 hqds

theorem find?_setFirstSvc_ne (svcs : List ServiceInstance) (i k : String)
    (f : ServiceInstance → ServiceInstance) (hf : ∀ x, (f x).id = x.id) (hk : k ≠ i) :
    (setFirstSvc svcs i f).find? (fun x => x.id = k) = svcs.find? (fun x => x.id = k) := by
  induction svcs with
  | nil => rfl
  | cons d ds ih =>
    show List.find? _ (if d.id = i then f d :: ds else d :: setFirstSvc ds i f) = _
    by_cases h : d.id = i
    · have hdk : ¬ d.id = k := by
        rw [h]
        exact fun hc => hk hc.symm
      have hfdk : ¬ (f d).id = k := by
        rw [hf]
        exact hdk
      rw [if_pos h, List.find?_cons_of_neg _ (by simpa using hfdk),
          List.find?_cons_of_neg _ (by simpa using hdk)]
    · rw [if_neg h]
      by_cases hdk : d.id = k
      · rw [List.find?_cons_of_pos _ (by simpa using hdk),
            List.find?_cons_of_pos _ (by simpa using hdk)]
      · rw [List.find?_cons_of_neg _ (by simpa using hdk),
            List.find?_cons_of_neg _ (by simpa using hdk), ih]

theorem find?_setFirstSvc_eq (svcs : List ServiceInstance) (i : String)
    (f : ServiceInstance → ServiceInstance) (hf : ∀ x, (f x).id = x.id) :
    (setFirstSvc svcs i f).find? (fun x => x.id = i) =
      (svcs.find? (fun x => x.id = i)).map f := by
  induction svcs with
  | nil => rfl
  | cons d ds ih =>
    show List.find? _ (if d.id = i then f d :: ds else d :: setFirstSvc ds i f) = _
    by_cases h : d.id = i
    · have hfd : (f d).id = i := by
        rw [hf]
        exact h
      rw [if_pos h, List.find?_cons_of_pos _ (by simpa using hfd),
          List.find?_cons_of_pos _ (by simpa using h)]
      rfl
    · rw [if_neg h, List.find?_cons_of_neg _ (by simpa using h),
          List.find?_cons_of_neg _ (by simpa using h), ih]

theorem findSvc_monitorStepSvc_ne (s : System) (i k : String) (hk : k ≠ i) :
    findSvc (monitorStepSvc s i).orch k = findSvc s.orch k := by
  cases hfind : findSvc s.orch i with
  | none => rw [monitorStepSvc_of_none s i hfind]
  | some inst =>
    rw [monitorStepSvc_of_some s i inst hfind]
    by_cases hu : UnhealthySvc inst
    · rw [if_pos hu]
      show (setFirstSvc s.orch.services i
          (fun x => { x with healthTenths := 10, cpuTenths := 500, memoryTenths := 600 })).find?
            (fun x => x.id = k) =
        s.orch.services.find? (fun x => x.id = k)
      exact find?_setFirstSvc_ne _ _ _ _ (fun x => rfl) hk
    · rw [if_neg hu]

theorem findSvc_svcPhase_not_mem (ids : List String) (s : System) (k : String)
    (hk : ¬ k ∈ ids) :
    findSvc (svcPhase s ids).orch k = findSvc s.orch k := by
  induction ids generalizing s with
  | nil => rfl
  | cons i ids ih =>
    have hki : k ≠ i := by
      intro hc
      exact hk (by rw [hc]; exact List.mem_cons_self _ _)
    rw [svcPhase_cons, ih (monitorStepSvc s i) (fun hc => hk (List.mem_cons_of_mem _ hc)),
      findSvc_monitorStepSvc_ne s i k hki]

theorem findSvc_monitorStepSvc_self (s : System) (i : String) (inst : ServiceInstance)
    (hfind : findSvc s.orch i = some inst) (hu : UnhealthySvc inst) :
    findSvc (monitorStepSvc s i).orch i =
      some { inst with healthTenths := 10, cpuTenths := 500, memoryTenths := 600 } := by
  rw [monitorStepSvc_of_some s i inst hfind, if_pos hu]
  show (setFirstSvc s.orch.services i
      (fun x => { x with healthTenths := 10, cpuTenths := 500, memoryTenths := 600 })).find?
        (fun x => x.id = i) = _
  rw [find?_setFirstSvc_eq _ _
    (fun x => { x with healthTenths := 10, cpuTenths := 500, memoryTenths := 600 })
    (fun x => rfl)]
  have hfind2 : s.orch.services.find? (fun x => x.id = i) = some inst := hfind
  rw [hfind2]
  rfl

theorem svcPhase_append (s : System) (l1 l2 : List String) :
    svcPhase s (l1 ++ l2) = svcPhase (svcPhase s l1) l2 := by
  unfold svcPhase
  rw [List.foldl_append]

theorem monitorStepSvc_noop (s : System) (i : String)
    (h : ∀ inst ∈ s.orch.services, ¬ UnhealthySvc inst) :
    monitorStepSvc s i = s := by
  cases hfind : findSvc s.orch i with
  | none => exact monitorStepSvc_of_none s i hfind
  | some inst =>
    rw [monitorStepSvc_of_some s i inst hfind]
    have hfind2 : s.orch.services.find? (fun x => x.id = i) = some inst := hfind
    exact if_neg (h inst (List.mem_of_find?_eq_some hfind2))

theorem svcPhase_noop (s : System) (ids : List String)
    (h : ∀ inst ∈ s.orch.services, ¬ UnhealthySvc inst) :
    svcPhase s ids = s := by
  induction ids with
  | nil => rfl
  | cons i ids ih =>
    rw [svcPhase_cons, monitorStepSvc_noop s i h, ih]

theorem nodup_split_of_mem {a : String} {l : List String} (hn : l.Nodup) (ha : a ∈ l) :
    ∃ l1 l2, l = l1 ++ a :: l2 ∧ ¬ a ∈ l1 ∧ ¬ a ∈ l2 := by
  obtain ⟨l1, l2, hsplit⟩ := List.append_of_mem ha
  refine ⟨l1, l2, hsplit, ?_, ?_⟩
  · intro hmem
    rw [hsplit, List.nodup_append] at hn
    exact hn.2.2 hmem (List.mem_cons_self _ _)
  · intro hmem
    rw [hsplit, List.nodup_append, List.nodup_cons] at hn
    exact hn.2.1.1 hmem

theorem dcPhase_pool_healed (s s1 : System)
    (hn : (s.orch.datacenters.map DataCenter.id).Nodup)
    (hok : dcPhase s (s.orch.datacenters.map (fun d => d.id)) = Except.ok s1)
    (p : DataCenter) (hp : p ∈ s.orch.datacenters) :
    ∃ pr, (findDC s1.orch p.id).map (fun d => (d.status, d.uptimeTenths)) = some pr ∧
      pr.1 = RegionStatus.healthy ∧
      (¬ p.status = RegionStatus.healthy → pr.2 = recoveryUptimeTenths) := by
  have hpid : p.id ∈ s.orch.datacenters.map (fun d => d.id) :=
    List.mem_map_of_mem _ hp
  have hnids : (s.orch.datacenters.map (fun d => d.id)).Nodup := hn
  obtain ⟨L1, L2, hsplit, hnot1, hnot2⟩ := nodup_split_of_mem hnids hpid
  rw [hsplit] at hok
  have hex1 : ∃ sa, dcPhase s L1 = Except.ok sa ∧
      dcPhase sa (p.id :: L2) = Except.ok s1 := by
    rw [dcPhase_append] at hok
    cases hL1 : dcPhase s L1 with
    | error e =>
      rw [hL1, except_bind_error] at hok
      cases hok
    | ok sa =>
      rw [hL1, except_bind_ok] at hok
      exact ⟨sa, rfl, hok⟩
  obtain ⟨sa, hL1, hrest⟩ := hex1
  have hex2 : ∃ sb, monitorStepDC sa p.id = Except.ok sb ∧
      dcPhase sb L2 = Except.ok s1 := by
    rw [dcPhase_cons] at hrest
    cases hstep : monitorStepDC sa p.id with
    | error e =>
      rw [hstep, except_bind_error] at hrest
      cases hrest
    | ok sb =>
      rw [hstep, except_bind_ok] at hrest
      exact ⟨sb, rfl, hrest⟩
  obtain ⟨sb, hstep, hL2⟩ := hex2
  have hpairL1 := pair_dcPhase_not_mem L1 s sa p.id hL1 hnot1
  have hfinds : findDC s.orch p.id = some p := find?_of_mem_nodup _ p hn hp
  rw [hfinds] at hpairL1
  have hexd : ∃ dcj, findDC sa.orch p.id = some dcj ∧
      dcj.status = p.status ∧ dcj.uptimeTenths = p.uptimeTenths := by
    cases hfd : findDC sa.orch p.id with
    | none =>
      rw [hfd] at hpairL1
      simp at hpairL1
    | some dcj =>
      rw [hfd] at hpairL1
      simp at hpairL1
      exact ⟨dcj, rfl, hpairL1.1, hpairL1.2⟩
  obtain ⟨dcj, hfindsa, hdcj1, hdcj2⟩ := hexd
  obtain ⟨pr, hprfind, hpr1, hpr2⟩ := pair_monitorStepDC_self sa sb p.id dcj hstep hfindsa
  have hpairL2 := pair_dcPhase_not_mem L2 sb s1 p.id hL2 hnot2
  refine ⟨pr, ?_, hpr1, ?_⟩
  · rw [hpairL2, hprfind]
  · intro hne
    apply hpr2
    rw [hdcj1]
    exact hne

/-- C4: after one successful `monitor_and_heal` cycle every pool is
Healthy; every pool that entered the cycle with a non-Healthy status
leaves it Healthy with uptime reset to the fixed recovery value 99.9;
every instance whose health was below 0.5 before the cycle has health 1.0
after it; and on an already-healthy state (no pool overloaded or
unhealthy, no instance below 0.5) the cycle returns the state
unchanged. -/
theorem c4_healing_convergence (s s2 : System) (hwf : WF s.orch)
    (hok : monitorAndHeal s = Except.ok s2) :
    (∀ p2 ∈ s2.orch.datacenters, p2.status = RegionStatus.healthy) ∧
    (∀ p ∈ s.orch.datacenters, ¬ p.status = RegionStatus.healthy →
      ∃ p2 ∈ s2.orch.datacenters, p2.id = p.id ∧ p2.status = RegionStatus.healthy ∧
        p2.uptimeTenths = recoveryUptimeTenths) ∧
    (∀ inst ∈ s.orch.services, UnhealthySvc inst →
      ∃ inst2 ∈ s2.orch.services, inst2.id = inst.id ∧ inst2.healthTenths = 10) ∧
    (AlreadyHealthy s → monitorAndHeal s = Except.ok s) := by
  have hex : ∃ s1, dcPhase s (s.orch.datacenters.map (fun d => d.id)) = Except.ok s1 ∧
      (Except.ok (svcPhase s1 (s1.orch.services.map (fun i => i.id))) :
        Except HealErr System) = Except.ok s2 := by
    unfold monitorAndHeal at hok
    cases hdc : dcPhase s (s.orch.datacenters.map (fun d => d.id)) with
    | error e =>
      rw [hdc, except_bind_error] at hok
      cases hok
    | ok s1 =>
      rw [hdc, except_bind_ok] at hok
      exact ⟨s1, rfl, hok⟩
  obtain ⟨s1, hdc, hsvc⟩ := hex
  have hs2pools : s2.orch.datacenters = s1.orch.datacenters := by
    cases hsvc
    exact datacenters_svcPhase _ s1
  have hs1svcs : s1.orch.services = s.orch.services := services_dcPhase _ s s1 hdc
  have hs1ids : s1.orch.datacenters.map DataCenter.id =
      s.orch.datacenters.map DataCenter.id := dcids_dcPhase _ s s1 hdc
  refine ⟨?_, ?_, ?_, ?_⟩
  · intro p2 hp2
    rw [hs2pools] at hp2
    have hnodup1 : (s1.orch.datacenters.map DataCenter.id).Nodup := by
      rw [hs1ids]
      exact hwf.1
    have h1 : p2.id ∈ s1.orch.datacenters.map DataCenter.id :=
      List.mem_map_of_mem DataCenter.id hp2
    rw [hs1ids] at h1
    have hid2 : p2.id ∈ s.orch.datacenters.map (fun d => d.id) := h1
    obtain ⟨p, hp, hpe⟩ := List.mem_map.mp hid2
    have hpe2 : p.id = p2.id := hpe
    obtain ⟨pr, hfind, hpr1, _⟩ := dcPhase_pool_healed s s1 hwf.1 hdc p hp
    have hfind2 : findDC s1.orch p.id = some p2 := by
      rw [hpe2]
      exact find?_of_mem_nodup _ p2 hnodup1 hp2
    rw [hfind2] at hfind
    have hinj : (fun d => (d.status, d.uptimeTenths)) p2 = pr :=
      Option.some_injective _ hfind
    exact (congrArg Prod.fst hinj).trans hpr1
  · intro p hp hne
    obtain ⟨pr, hfind, hpr1, hpr2⟩ := dcPhase_pool_healed s s1 hwf.1 hdc p hp
    cases hfd : findDC s1.orch p.id with
    | none =>
      rw [hfd] at hfind
      simp at hfind
    | some p2 =>
      rw [hfd] at hfind
      have hinj : (fun d => (d.status, d.uptimeTenths)) p2 = pr :=
        Option.some_injective _ hfind
      have hfd2 : s1.orch.datacenters.find? (fun d => d.id = p.id) = some p2 := hfd
      have hp2id : p2.id = p.id := by
        have h3 := List.find?_some hfd2
        simpa using h3
      refine ⟨p2, ?_, hp2id, ?_, ?_⟩
      · rw [hs2pools]
        exact List.mem_of_find?_eq_some hfd2
      · exact (congrArg Prod.fst hinj).trans hpr1
      · exact (congrArg Prod.snd hinj).trans (hpr2 hne)
  · intro inst hinst hu
    have hids : s1.orch.services.map (fun i => i.id) =
        s.orch.services.map (fun i => i.id) := by
      rw [hs1svcs]
    have hinstid : inst.id ∈ s1.orch.services.map (fun i => i.id) := by
      rw [hids]
      exact List.mem_map_of_mem _ hinst
    have hsvcnodup : (s1.orch.services.map (fun i => i.id)).Nodup := by
      rw [hids]
      exact hwf.2.1
    obtain ⟨L1, L2, hsplit, hnot1, hnot2⟩ := nodup_split_of_mem hsvcnodup hinstid
    rw [hsplit] at hsvc
    cases hsvc
    rw [svcPhase_append, svcPhase_cons]
    have hfindsa : findSvc (svcPhase s1 L1).orch inst.id = some inst := by
      rw [findSvc_svcPhase_not_mem L1 s1 inst.id hnot1]
      show s1.orch.services.find? (fun x => x.id = inst.id) = some inst
      rw [hs1svcs]
      exact find?Svc_of_mem_nodup _ inst hwf.2.1 hinst
    have hstep := findSvc_monitorStepSvc_self (svcPhase s1 L1) inst.id inst hfindsa hu
    have hfinal := findSvc_svcPhase_not_mem L2
      (monitorStepSvc (svcPhase s1 L1) inst.id) inst.id hnot2
    rw [hstep] at hfinal
    exact ⟨{ inst with healthTenths := 10, cpuTenths := 500, memoryTenths := 600 },
      List.mem_of_find?_eq_some hfinal, rfl, rfl⟩
  · intro hh
    have hdcnoop : dcPhase s (s.orch.datacenters.map (fun d => d.id)) = Except.ok s := by
      apply dcPhase_noop_prefix
      intro i _
      cases hfind : findDC s.orch i with
      | none => exact monitorStepDC_of_none s i hfind
      | some dc =>
        have hfind2 : s.orch.datacenters.find? (fun d => d.id = i) = some dc := hfind
        have hdcmem : dc ∈ s.orch.datacenters := List.mem_of_find?_eq_some hfind2
        exact monitorStepDC_noop s i dc hfind (hh.1 dc hdcmem).1 (hh.1 dc hdcmem).2
    unfold monitorAndHeal
    rw [hdcnoop]
    show Except.ok (svcPhase s (s.orch.services.map (fun i => i.id))) = Except.ok s
    rw [svcPhase_noop s _ hh.2]

/-- C4 witness: on the concrete registry with a Degraded pool and a
health-0.2 instance, the cycle leaves the pool Healthy with uptime 99.9
and the instance at health 1.0; a cycle on an already-healthy registry
returns it unchanged. -/
theorem c4_witness :
    (∃ p2 ∈ ({ orch := c4Healed, healingActions := 2 } : System).orch.datacenters,
      p2.id = (mkDC "P" 100 0 .degraded 10).id ∧ p2.status = RegionStatus.healthy ∧
      p2.uptimeTenths = recoveryUptimeTenths) ∧
    monitorAndHeal { orch := tieRatioReg, healingActions := 0 } =
      Except.ok { orch := tieRatioReg, healingActions := 0 } := by
  constructor
  · exact (c4_healing_convergence { orch := c4Reg, healingActions := 0 }
      { orch := c4Healed, healingActions := 2 } (by decide) (by decide)).2.1
      (mkDC "P" 100 0 .degraded 10) (by decide) (by decide)
  · exact (c4_healing_convergence { orch := tieRatioReg, healingActions := 0 }
      { orch := tieRatioReg, healingActions := 0 } (by decide) (by decide)).2.2.2
      (by decide)

end PrometheusBrain
